import Mathlib

/-!
Verification of the natural-language specification of the
`vite-plugin-chatgpt-widgets` repository against a shallow embedding of its
source (`src/index.ts`, the current version with the `-html-` / `-entrypoint-`
virtual-module namespaces).

All string-processing functions from the source (the global regex replaces of
`transformHtmlWithAbsoluteUrls`, the literal `/@id/` rewrite, the `<head>` shim
injection) are embedded as executable functions on `List Char` that model
JavaScript `String.replace` semantics: leftmost match first, non-overlapping,
greedy quantifiers with backtracking for the two tag regexes.
-/

set_option maxRecDepth 40000

namespace VCW

/-! ## Generic substring toolkit over `List Char` -/

/-- Decides whether `pat` occurs as a contiguous substring of `s`
(the semantics of JavaScript `String.includes`). -/
def containsSub (pat : List Char) : List Char → Bool
  | [] => pat.isEmpty
  | c :: t => pat.isPrefixOf (c :: t) || containsSub pat t

theorem containsSub_iff (pat s : List Char) :
    containsSub pat s = true ↔ ∃ u v, s = u ++ pat ++ v := by
  induction s with
  | nil =>
    simp only [containsSub, List.isEmpty_iff]
    constructor
    · intro h; exact ⟨[], [], by simp [h]⟩
    · rintro ⟨u, v, h⟩
      rcases List.append_eq_nil.mp h.symm with ⟨h1, h2⟩
      exact (List.append_eq_nil.mp h1).2
  | cons c t ih =>
    simp only [containsSub, Bool.or_eq_true, List.isPrefixOf_iff_prefix, ih]
    constructor
    · rintro (⟨r, hr⟩ | ⟨u, v, huv⟩)
      · exact ⟨[], r, by simp [hr.symm]⟩
      · exact ⟨c :: u, v, by simp [huv]⟩
    · rintro ⟨u, v, huv⟩
      cases u with
      | nil => exact Or.inl ⟨v, by simpa using huv.symm⟩
      | cons x u' =>
        right
        refine ⟨u', v, ?_⟩
        have h2 : c = x ∧ t = u' ++ (pat ++ v) := by simpa using huv
        simpa using h2.2

theorem containsSub_of_right {pat b : List Char} (a : List Char)
    (h : containsSub pat b = true) : containsSub pat (a ++ b) = true := by
  rcases (containsSub_iff pat b).mp h with ⟨u, v, huv⟩
  exact (containsSub_iff _ _).mpr ⟨a ++ u, v, by simp [huv]⟩

theorem containsSub_of_left {pat a : List Char} (b : List Char)
    (h : containsSub pat a = true) : containsSub pat (a ++ b) = true := by
  rcases (containsSub_iff pat a).mp h with ⟨u, v, huv⟩
  exact (containsSub_iff _ _).mpr ⟨u, v ++ b, by simp [huv]⟩

theorem not_containsSub_of_not_mem {pat s : List Char} {c : Char}
    (hc : c ∈ pat) (hs : c ∉ s) : ¬ containsSub pat s = true := by
  intro h
  rcases (containsSub_iff pat s).mp h with ⟨u, v, huv⟩
  exact hs (by simp [huv, hc])

/-- Splitting an occurrence across an append: it lies in the left part, in the
right part, or straddles the boundary. -/
theorem containsSub_append_cases {pat a b : List Char}
    (h : containsSub pat (a ++ b) = true) :
    containsSub pat a = true ∨ containsSub pat b = true ∨
      ∃ s1 s2, pat = s1 ++ s2 ∧ s1 ≠ [] ∧ s2 ≠ [] ∧ s1 <:+ a ∧ s2 <+: b := by
  induction a with
  | nil => exact Or.inr (Or.inl (by simpa using h))
  | cons c a' ih =>
    rw [List.cons_append] at h
    simp only [containsSub, Bool.or_eq_true, List.isPrefixOf_iff_prefix] at h
    rcases h with hpre | htail
    · -- pat is a prefix of (c :: a') ++ b
      rcases hpre with ⟨r, hr⟩
      rw [← List.cons_append] at hr
      set x := c :: a' with hx
      by_cases hlen : pat.length ≤ x.length
      · -- the occurrence fits entirely in x
        left
        have htake : (x ++ b).take pat.length = x.take pat.length :=
          List.take_append_of_le_length hlen
        have hpat : pat = x.take pat.length := by
          have := congrArg (List.take pat.length) hr
          rw [List.take_left, htake] at this
          exact this
        have hpfx : pat <+: x := hpat ▸ List.take_prefix _ _
        rcases hpfx with ⟨r', hr'⟩
        exact (containsSub_iff _ _).mpr ⟨[], r', by simp [hr'.symm]⟩
      · -- straddles the boundary: s1 = x, s2 = pat.drop x.length
        right; right
        push_neg at hlen
        have hx_eq : x = pat.take x.length := by
          have := congrArg (List.take x.length) hr
          rw [List.take_left, List.take_append_of_le_length (Nat.le_of_lt hlen)] at this
          exact this.symm
        have hb_eq : b = pat.drop x.length ++ r := by
          have := congrArg (List.drop x.length) hr
          rw [List.drop_left, List.drop_append_of_le_length (Nat.le_of_lt hlen)] at this
          exact this.symm
        refine ⟨x, pat.drop x.length, ?_, by simp [hx], ?_, List.suffix_refl _, ⟨r, hb_eq.symm⟩⟩
        · conv_lhs => rw [← List.take_append_drop x.length pat]
          rw [← hx_eq]
        · intro hnil
          have := congrArg List.length hnil
          simp at this
          omega
    · rcases ih htail with h1 | h1 | ⟨s1, s2, h1, h2, h3, h4, h5⟩
      · left
        rcases (containsSub_iff _ _).mp h1 with ⟨u, v, huv⟩
        exact (containsSub_iff _ _).mpr ⟨c :: u, v, by simp [huv]⟩
      · exact Or.inr (Or.inl h1)
      · exact Or.inr (Or.inr ⟨s1, s2, h1, h2, h3, h4.trans (List.suffix_cons c a'), h5⟩)

/-- Characters of a prefix occurrence agree with the host string. -/
theorem getElem?_of_prefix {pat s : List Char} (h : pat <+: s) {k : Nat}
    (hk : k < pat.length) : s[k]? = pat[k]? := by
  rcases h with ⟨r, rfl⟩
  rw [List.getElem?_append_left hk]

/-- Occurrences of `pat` cannot start inside `seg` when `pat` begins with a
character that does not occur in `seg`. -/
theorem kill_head {pat seg : List Char} {cq : Char}
    (hp : pat[0]? = some cq) (hseg : cq ∉ seg) :
    ∀ t, ∀ n < seg.length, ¬ pat <+: (seg.drop n ++ t) := by
  intro t n hn hpre
  have hi : 0 < pat.length := by
    by_contra hcon
    rw [List.getElem?_eq_none (by omega)] at hp
    exact Option.noConfusion hp
  have h1 := getElem?_of_prefix hpre hi
  rw [hp] at h1
  have hlen : 0 < (seg.drop n).length := by
    rw [List.length_drop]; omega
  rw [List.getElem?_append_left hlen, List.getElem?_drop] at h1
  exact hseg (List.getElem?_mem (by simpa using h1))

/-- Occurrences of `pat` cannot start inside `seg` when `pat` has, at offset
`i`, a character absent from `seg` that also cannot be matched by the first
character of the following text `t` at any admissible alignment. -/
theorem kill_at {pat seg t : List Char} {i : Nat} {cq d0 : Char}
    (hp : pat[i]? = some cq) (hseg : cq ∉ seg) (ht0 : t[0]? = some d0)
    (hd : ∀ j, 1 ≤ j → j ≤ i → pat[j]? ≠ some d0) :
    ∀ n < seg.length, ¬ pat <+: (seg.drop n ++ t) := by
  intro n hn hpre
  have hi : i < pat.length := by
    by_contra hcon
    rw [List.getElem?_eq_none (by omega)] at hp
    exact Option.noConfusion hp
  have hdlen : (seg.drop n).length = seg.length - n := List.length_drop n seg
  by_cases hcase : n + i < seg.length
  · have h1 := getElem?_of_prefix hpre hi
    rw [hp] at h1
    have hlen : i < (seg.drop n).length := by omega
    rw [List.getElem?_append_left hlen, List.getElem?_drop] at h1
    exact hseg (List.getElem?_mem (by simpa using h1))
  · have hj1 : 1 ≤ seg.length - n := by omega
    have hji : seg.length - n ≤ i := by omega
    have hjlen : seg.length - n < pat.length := lt_of_le_of_lt hji hi
    have h1 := getElem?_of_prefix hpre hjlen
    refine hd (seg.length - n) hj1 hji ?_
    rw [← h1]
    rw [List.getElem?_append_right (by omega)]
    simpa [hdlen] using ht0

/-- Does the overlap of `pat` and `s` contain a definite character mismatch?
If so, no occurrence of `pat` can start at the head of `s ++ t` for any `t`. -/
def hasMismatch : List Char → List Char → Bool
  | _, [] => false
  | [], _ => false
  | p :: ps, c :: cs => p ≠ c || hasMismatch ps cs

theorem hasMismatch_spec {pat s : List Char} (h : hasMismatch pat s = true) :
    ∀ t, ¬ pat <+: (s ++ t) := by
  induction pat generalizing s with
  | nil => cases s <;> simp [hasMismatch] at h
  | cons p ps ih =>
    cases s with
    | nil => simp [hasMismatch] at h
    | cons c cs =>
      simp only [hasMismatch, Bool.or_eq_true, decide_eq_true_eq, bne_iff_ne] at h
      intro t hpre
      rw [List.cons_append] at hpre
      rcases hpre with ⟨r, hr⟩
      rw [List.cons_append] at hr
      have h1 : p = c := (List.cons.injEq _ _ _ _).mp hr |>.1
      have h2 : ps ++ r = cs ++ t := (List.cons.injEq _ _ _ _).mp hr |>.2
      rcases h with h | h
      · exact h h1
      · exact ih h t ⟨r, h2⟩

/-- Every potential occurrence of `pat` starting inside `a` dies on a mismatch
before `a` ends (decidable on concrete data). -/
def allStartsDie (pat : List Char) : List Char → Bool
  | [] => true
  | c :: t => hasMismatch pat (c :: t) && allStartsDie pat t

theorem allStartsDie_spec {pat a : List Char} (h : allStartsDie pat a = true) :
    ∀ t, ∀ n < a.length, ¬ pat <+: (a.drop n ++ t) := by
  induction a with
  | nil => intro t n hn; simp at hn
  | cons c cs ih =>
    simp only [allStartsDie, Bool.and_eq_true] at h
    intro t n hn
    cases n with
    | zero =>
      simpa using hasMismatch_spec h.1 t
    | succ m =>
      simp only [List.length_cons, Nat.succ_lt_succ_iff] at hn
      simpa using ih h.2 t m hn

/-- Membership transport for nonempty suffixes: the last element of the host
is an element of the suffix. -/
theorem last_mem_of_suffix {s1 a : List Char} (h : s1 <:+ a) (hne : s1 ≠ []) :
    ∃ ch, a.getLast? = some ch ∧ ch ∈ s1 := by
  rcases List.eq_nil_or_concat s1 with rfl | ⟨s, ch, rfl⟩
  · exact absurd rfl hne
  · rcases h with ⟨w, rfl⟩
    refine ⟨ch, ?_, by simp⟩
    simp [List.getLast?_concat]

/-- Membership transport for nonempty prefixes: the head of the host is an
element of the prefix. -/
theorem head_mem_of_pre {s2 b : List Char} (h : s2 <+: b) (hne : s2 ≠ []) :
    ∃ ch, b.head? = some ch ∧ ch ∈ s2 := by
  cases s2 with
  | nil => exact absurd rfl hne
  | cons x xs =>
    rcases h with ⟨w, rfl⟩
    exact ⟨x, by simp, by simp⟩

/-- No occurrence in an append when both halves are clean and the last
character of the left half does not occur in the pattern. -/
theorem not_containsSub_append_last {pat a b : List Char}
    (ha : containsSub pat a ≠ true) (hb : containsSub pat b ≠ true)
    (hlast : ∀ ch, a.getLast? = some ch → ch ∉ pat) :
    containsSub pat (a ++ b) ≠ true := by
  intro h
  rcases containsSub_append_cases h with h1 | h1 | ⟨s1, s2, hps, hn1, hn2, hsfx, hpfx⟩
  · exact ha h1
  · exact hb h1
  · rcases last_mem_of_suffix hsfx hn1 with ⟨ch, hch, hmem⟩
    exact hlast ch hch (by rw [hps]; exact List.mem_append_left _ hmem)

/-- No occurrence in an append when both halves are clean and the head
character of the right half does not occur in the pattern. -/
theorem not_containsSub_append_head {pat a b : List Char}
    (ha : containsSub pat a ≠ true) (hb : containsSub pat b ≠ true)
    (hhead : ∀ ch, b.head? = some ch → ch ∉ pat) :
    containsSub pat (a ++ b) ≠ true := by
  intro h
  rcases containsSub_append_cases h with h1 | h1 | ⟨s1, s2, hps, hn1, hn2, hsfx, hpfx⟩
  · exact ha h1
  · exact hb h1
  · rcases head_mem_of_pre hpfx hn2 with ⟨ch, hch, hmem⟩
    exact hhead ch hch (by rw [hps]; exact List.mem_append_right _ hmem)

/-! ## Literal global replace (JavaScript `String.replace` with a literal
global pattern): leftmost occurrence first, non-overlapping, scanning
resumes after each replacement. Implemented with explicit fuel so that all
definitions are structural and kernel-computable. -/

def replaceAllLitF (pat rep : List Char) : Nat → List Char → List Char
  | _, [] => []
  | 0, s => s
  | fuel + 1, c :: t =>
    if pat.isPrefixOf (c :: t) && !pat.isEmpty then
      rep ++ replaceAllLitF pat rep fuel (t.drop (pat.length - 1))
    else
      c :: replaceAllLitF pat rep fuel t

theorem replaceAllLitF_fuel (pat rep : List Char) :
    ∀ f1 : Nat, ∀ s : List Char, ∀ f2 : Nat, s.length ≤ f1 → s.length ≤ f2 →
      replaceAllLitF pat rep f1 s = replaceAllLitF pat rep f2 s := by
  intro f1
  induction f1 with
  | zero =>
    intro s f2 h1 _
    have : s = [] := List.length_eq_zero.mp (Nat.le_zero.mp h1)
    subst this
    cases f2 <;> rfl
  | succ f ih =>
    intro s f2 h1 h2
    cases s with
    | nil => cases f2 <;> rfl
    | cons c t =>
      cases f2 with
      | zero => simp at h2
      | succ f2' =>
        simp only [replaceAllLitF]
        by_cases hc : (pat.isPrefixOf (c :: t) && !pat.isEmpty) = true
        · rw [if_pos hc, if_pos hc]
          congr 1
          refine ih _ _ ?_ ?_ <;>
            · have := List.length_drop (pat.length - 1) t
              have h3 : (t.drop (pat.length - 1)).length ≤ t.length := by
                rw [this]; omega
              simp only [List.length_cons] at h1 h2
              omega
        · rw [if_neg hc, if_neg hc]
          congr 1
          refine ih _ _ ?_ ?_ <;> simp only [List.length_cons] at h1 h2 <;> omega

/-- JavaScript global literal replace. -/
def replaceAllLit (pat rep s : List Char) : List Char :=
  replaceAllLitF pat rep s.length s

theorem replaceAllLit_nil (pat rep : List Char) : replaceAllLit pat rep [] = [] := rfl

theorem replaceAllLit_cons (pat rep : List Char) (c : Char) (t : List Char) :
    replaceAllLit pat rep (c :: t) =
      if pat.isPrefixOf (c :: t) && !pat.isEmpty then
        rep ++ replaceAllLit pat rep (t.drop (pat.length - 1))
      else
        c :: replaceAllLit pat rep t := by
  show replaceAllLitF pat rep (t.length + 1) (c :: t) = _
  simp only [replaceAllLitF]
  by_cases hc : (pat.isPrefixOf (c :: t) && !pat.isEmpty) = true
  · rw [if_pos hc, if_pos hc]
    congr 1
    refine replaceAllLitF_fuel pat rep _ _ _ ?_ (le_refl _)
    have := List.length_drop (pat.length - 1) t
    omega
  · rw [if_neg hc, if_neg hc]
    rfl

theorem replaceAllLit_skip {pat : List Char} (rep : List Char) {c : Char} {t : List Char}
    (h : ¬ pat <+: (c :: t)) :
    replaceAllLit pat rep (c :: t) = c :: replaceAllLit pat rep t := by
  rw [replaceAllLit_cons, if_neg]
  simp only [Bool.and_eq_true, List.isPrefixOf_iff_prefix]
  intro hc
  exact h hc.1

theorem replaceAllLit_match {pat : List Char} (rep : List Char) (hne : pat ≠ [])
    (u : List Char) :
    replaceAllLit pat rep (pat ++ u) = rep ++ replaceAllLit pat rep u := by
  cases pat with
  | nil => exact absurd rfl hne
  | cons p ps =>
    rw [List.cons_append, replaceAllLit_cons]
    rw [if_pos]
    · congr 1
      congr 1
      simp only [List.length_cons, Nat.add_sub_cancel]
      exact List.drop_left ps u
    · simp only [Bool.and_eq_true, List.isPrefixOf_iff_prefix]
      exact ⟨⟨u, by simp⟩, by simp⟩

theorem replaceAllLit_append_skip {pat : List Char} (rep : List Char) {a t : List Char}
    (h : ∀ n < a.length, ¬ pat <+: (a.drop n ++ t)) :
    replaceAllLit pat rep (a ++ t) = a ++ replaceAllLit pat rep t := by
  induction a with
  | nil => rfl
  | cons c a' ih =>
    rw [List.cons_append, replaceAllLit_skip rep (by simpa using h 0 (by simp))]
    rw [ih (fun n hn => by simpa using h (n + 1) (by simpa using hn))]
    rfl

/-! ## Literal first-occurrence replace (JavaScript `String.replace` with a
non-global literal pattern). -/

def replaceFirstF (pat rep : List Char) : Nat → List Char → List Char
  | _, [] => []
  | 0, s => s
  | fuel + 1, c :: t =>
    if pat.isPrefixOf (c :: t) && !pat.isEmpty then
      rep ++ t.drop (pat.length - 1)
    else
      c :: replaceFirstF pat rep fuel t

theorem replaceFirstF_fuel (pat rep : List Char) :
    ∀ f1 : Nat, ∀ s : List Char, ∀ f2 : Nat, s.length ≤ f1 → s.length ≤ f2 →
      replaceFirstF pat rep f1 s = replaceFirstF pat rep f2 s := by
  intro f1
  induction f1 with
  | zero =>
    intro s f2 h1 _
    have : s = [] := List.length_eq_zero.mp (Nat.le_zero.mp h1)
    subst this
    cases f2 <;> rfl
  | succ f ih =>
    intro s f2 h1 h2
    cases s with
    | nil => cases f2 <;> rfl
    | cons c t =>
      cases f2 with
      | zero => simp at h2
      | succ f2' =>
        simp only [replaceFirstF]
        by_cases hc : (pat.isPrefixOf (c :: t) && !pat.isEmpty) = true
        · rw [if_pos hc, if_pos hc]
        · rw [if_neg hc, if_neg hc]
          congr 1
          refine ih _ _ ?_ ?_ <;> simp only [List.length_cons] at h1 h2 <;> omega

/-- JavaScript non-global literal replace (first occurrence only). -/
def replaceFirst (pat rep s : List Char) : List Char :=
  replaceFirstF pat rep s.length s

theorem replaceFirst_nil (pat rep : List Char) : replaceFirst pat rep [] = [] := rfl

theorem replaceFirst_cons (pat rep : List Char) (c : Char) (t : List Char) :
    replaceFirst pat rep (c :: t) =
      if pat.isPrefixOf (c :: t) && !pat.isEmpty then
        rep ++ t.drop (pat.length - 1)
      else
        c :: replaceFirst pat rep t := by
  show replaceFirstF pat rep (t.length + 1) (c :: t) = _
  simp only [replaceFirstF]
  rfl

theorem replaceFirst_skip {pat : List Char} (rep : List Char) {c : Char} {t : List Char}
    (h : ¬ pat <+: (c :: t)) :
    replaceFirst pat rep (c :: t) = c :: replaceFirst pat rep t := by
  rw [replaceFirst_cons, if_neg]
  simp only [Bool.and_eq_true, List.isPrefixOf_iff_prefix]
  intro hc
  exact h hc.1

theorem replaceFirst_match {pat : List Char} (rep : List Char) (hne : pat ≠ [])
    (u : List Char) :
    replaceFirst pat rep (pat ++ u) = rep ++ u := by
  cases pat with
  | nil => exact absurd rfl hne
  | cons p ps =>
    rw [List.cons_append, replaceFirst_cons]
    rw [if_pos]
    · congr 1
      simp only [List.length_cons, Nat.add_sub_cancel]
      exact List.drop_left ps u
    · simp only [Bool.and_eq_true, List.isPrefixOf_iff_prefix]
      exact ⟨⟨u, by simp⟩, by simp⟩

theorem replaceFirst_append_skip {pat : List Char} (rep : List Char) {a t : List Char}
    (h : ∀ n < a.length, ¬ pat <+: (a.drop n ++ t)) :
    replaceFirst pat rep (a ++ t) = a ++ replaceFirst pat rep t := by
  induction a with
  | nil => rfl
  | cons c a' ih =>
    rw [List.cons_append, replaceFirst_skip rep (by simpa using h 0 (by simp))]
    rw [ih (fun n hn => by simpa using h (n + 1) (by simpa using hn))]
    rfl

theorem replaceFirst_no_occurrence {pat : List Char} (rep : List Char) {s : List Char}
    (h : containsSub pat s ≠ true) : replaceFirst pat rep s = s := by
  induction s with
  | nil => rfl
  | cons c t ih =>
    simp only [ne_eq, containsSub, Bool.or_eq_true, List.isPrefixOf_iff_prefix,
      not_or] at h
    rw [replaceFirst_skip rep h.1, ih (by simpa using h.2)]

/-- Characterization of a successful first-occurrence replace: the input
splits as `u ++ pat ++ v` and the output is `u ++ rep ++ v`. -/
theorem replaceFirst_occurrence {pat : List Char} (rep : List Char) {s : List Char}
    (hne : pat ≠ []) (h : containsSub pat s = true) :
    ∃ u v, s = u ++ pat ++ v ∧ replaceFirst pat rep s = u ++ rep ++ v := by
  induction s with
  | nil =>
    simp only [containsSub, List.isEmpty_iff] at h
    exact absurd h hne
  | cons c t ih =>
    simp only [containsSub, Bool.or_eq_true, List.isPrefixOf_iff_prefix] at h
    by_cases hc : pat <+: (c :: t)
    · rcases hc with ⟨v, hv⟩
      exact ⟨[], v, by simp [hv.symm], by rw [← hv, replaceFirst_match rep hne]; simp⟩
    · rcases h with h | h
      · exact absurd h hc
      · rcases ih h with ⟨u, v, h1, h2⟩
        refine ⟨c :: u, v, by simp [h1], ?_⟩
        rw [replaceFirst_skip rep hc, h2]
        simp

/-! ## The tag regexes of `transformHtmlWithAbsoluteUrls`

The source rewrites HTML with the two global JavaScript regexes
`(<script[^>]+src=["'])\\/([^"']+)(["'])` and
`(<link[^>]+href=["'])\\/([^"']+)(["'])`.  We model the common shape
`(TAG[^>]+LIT["'])\\/([^"']+)(["'])` exactly, including the greedy,
backtracking semantics of `[^>]+` (the longest gap for which the rest of the
pattern still matches wins) and of `[^"']+` (deterministically the maximal
quote-free run, which must be nonempty and followed by a quote). -/

def isQuote (c : Char) : Bool := c == '"' || c == '\''

/-- Result of matching `LIT["']\/([^"']+)(["'])` at a position. -/
structure ContM where
  q : Char
  path : List Char
  q2 : Char
  rest : List Char
  deriving DecidableEq

/-- Well-formedness facts that hold of every successful continuation match. -/
def ContMOK (m : ContM) : Prop :=
  isQuote m.q = true ∧ isQuote m.q2 = true ∧ m.path ≠ [] ∧
    ∀ c ∈ m.path, isQuote c = false

/-- Match the continuation `LIT`, an opening quote, `/`, a nonempty maximal
quote-free run, and a closing quote, at the head of `s`. -/
def contMatch (lit : List Char) (s : List Char) : Option ContM :=
  if lit.isPrefixOf s then
    match s.drop lit.length with
    | q :: sl :: rest2 =>
      if isQuote q then
        if sl = '/' then
          match rest2.dropWhile (fun c => !isQuote c) with
          | q2 :: rest3 =>
            if (rest2.takeWhile (fun c => !isQuote c)).isEmpty then none
            else some ⟨q, rest2.takeWhile (fun c => !isQuote c), q2, rest3⟩
          | [] => none
        else none
      else none
    | _ => none
  else none

/-- Greedy backtracking search for the split of `[^>]+`: the longest nonempty
`>`-free gap `g` after which the continuation matches. -/
def bestSplit (lit : List Char) : List Char → Option (List Char × ContM)
  | [] => none
  | c :: rest =>
    if c = '>' then none
    else
      match bestSplit lit rest with
      | some (g, m) => some (c :: g, m)
      | none =>
        match contMatch lit rest with
        | some m => some ([c], m)
        | none => none

/-- Match of the whole tag regex at the head of `s`. -/
def tagMatch (tag lit : List Char) (s : List Char) : Option (List Char × ContM) :=
  if tag.isPrefixOf s then bestSplit lit (s.drop tag.length) else none

theorem dropWhile_head_false {pr : Char → Bool} {l r : List Char} {x : Char}
    (h : l.dropWhile pr = x :: r) : pr x = false := by
  induction l with
  | nil => simp [List.dropWhile] at h
  | cons c cs ih =>
    rw [List.dropWhile_cons] at h
    by_cases hc : pr c = true
    · rw [if_pos hc] at h; exact ih h
    · rw [if_neg hc] at h
      rcases h with ⟨rfl, rfl⟩
      exact Bool.not_eq_true _ |>.mp hc

theorem contMatch_some {lit s : List Char} {m : ContM} (h : contMatch lit s = some m) :
    s = lit ++ m.q :: '/' :: (m.path ++ m.q2 :: m.rest) ∧ ContMOK m := by
  unfold contMatch at h
  split at h
  case isFalse => exact absurd h (by simp)
  case isTrue hp =>
  have hs : s = lit ++ s.drop lit.length := by
    rcases List.isPrefixOf_iff_prefix.mp hp with ⟨r, rfl⟩
    rw [List.drop_left]
  split at h
  case h_2 => exact absurd h (by simp)
  case h_1 q sl rest2 hd =>
  split at h
  case isFalse => exact absurd h (by simp)
  case isTrue hq =>
  split at h
  case isFalse => exact absurd h (by simp)
  case isTrue hsl =>
  split at h
  case h_2 hdw => exact absurd h (by simp)
  case h_1 q2 rest3 hdw =>
  split at h
  case isTrue => exact absurd h (by simp)
  case isFalse hpe =>
  subst hsl
  have hm := Option.some.injEq _ _ |>.mp h |>.symm
  subst hm
  refine ⟨?_, hq, ?_, by simpa using hpe, ?_⟩

  · rw [hs, hd]
    simp only [List.cons.injEq, true_and, List.append_cancel_left_eq]
    conv_lhs => rw [← List.takeWhile_append_dropWhile (p := fun c => !isQuote c) (l := rest2)]
    rw [hdw]
  · have := dropWhile_head_false hdw
    simpa using this
  · intro c hc
    have := List.mem_takeWhile_imp hc
    simpa using this

theorem contMatch_rest_length {lit s : List Char} {m : ContM}
    (h : contMatch lit s = some m) : m.rest.length + 3 ≤ s.length := by
  have hd := (contMatch_some h).1
  have := congrArg List.length hd
  simp only [List.length_append, List.length_cons] at this
  omega

/-- `takeWhile` over a clean run stops exactly at the first failing element. -/
theorem takeWhile_append_stop {pr : Char → Bool} {p r : List Char} {x : Char}
    (hp : ∀ c ∈ p, pr c = true) (hx : pr x = false) :
    (p ++ x :: r).takeWhile pr = p := by
  induction p with
  | nil => simp [List.takeWhile_cons, hx]
  | cons c cs ih =>
    rw [List.cons_append, List.takeWhile_cons, if_pos (hp c (by simp))]
    rw [ih (fun d hd => hp d (by simp [hd]))]

/-- `dropWhile` over a clean run stops exactly at the first failing element. -/
theorem dropWhile_append_stop {pr : Char → Bool} {p r : List Char} {x : Char}
    (hp : ∀ c ∈ p, pr c = true) (hx : pr x = false) :
    (p ++ x :: r).dropWhile pr = x :: r := by
  induction p with
  | nil => simp [List.dropWhile_cons, hx]
  | cons c cs ih =>
    rw [List.cons_append, List.dropWhile_cons, if_pos (hp c (by simp))]
    exact ih (fun d hd => hp d (by simp [hd]))

/-- Constructor form: the continuation match succeeds on a well-shaped input. -/
theorem contMatch_mk {lit p rest : List Char} {q q2 : Char}
    (hq : isQuote q = true) (hq2 : isQuote q2 = true) (hp : p ≠ [])
    (hpc : ∀ c ∈ p, isQuote c = false) :
    contMatch lit (lit ++ q :: '/' :: (p ++ q2 :: rest)) = some ⟨q, p, q2, rest⟩ := by
  have hpre : lit.isPrefixOf (lit ++ q :: '/' :: (p ++ q2 :: rest)) = true :=
    List.isPrefixOf_iff_prefix.mpr ⟨_, rfl⟩
  have hdrop : (lit ++ q :: '/' :: (p ++ q2 :: rest)).drop lit.length =
      q :: '/' :: (p ++ q2 :: rest) := List.drop_left _ _
  have hp' : ∀ c ∈ p, (fun c => !isQuote c) c = true := by
    intro c hc; simp [hpc c hc]
  have hx' : (fun c => !isQuote c) q2 = false := by simp [hq2]
  unfold contMatch
  rw [if_pos hpre, hdrop]
  show (if isQuote q = true then _ else _) = _
  rw [if_pos hq, if_pos rfl, dropWhile_append_stop hp' hx',
    takeWhile_append_stop hp' hx']
  show (if p.isEmpty = true then (none : Option ContM) else some ⟨q, p, q2, rest⟩) =
    some ⟨q, p, q2, rest⟩
  rw [if_neg (by simpa using hp)]

theorem bestSplit_nil (lit : List Char) : bestSplit lit [] = none := rfl

theorem bestSplit_gtChar (lit r : List Char) : bestSplit lit ('>' :: r) = none := by
  simp [bestSplit]

theorem bestSplit_cons_deep {lit r g : List Char} {m : ContM} {c : Char} (hc : c ≠ '>')
    (h : bestSplit lit r = some (g, m)) : bestSplit lit (c :: r) = some (c :: g, m) := by
  simp [bestSplit, hc, h]

theorem bestSplit_cons_cont {lit r : List Char} {m : ContM} {c : Char} (hc : c ≠ '>')
    (h1 : bestSplit lit r = none) (h2 : contMatch lit r = some m) :
    bestSplit lit (c :: r) = some ([c], m) := by
  simp [bestSplit, hc, h1, h2]

theorem bestSplit_cons_none {lit r : List Char} {c : Char} (hc : c ≠ '>')
    (h1 : bestSplit lit r = none) (h2 : contMatch lit r = none) :
    bestSplit lit (c :: r) = none := by
  simp [bestSplit, hc, h1, h2]

theorem bestSplit_some {lit s g : List Char} {m : ContM}
    (h : bestSplit lit s = some (g, m)) :
    s = g ++ lit ++ m.q :: '/' :: (m.path ++ m.q2 :: m.rest) ∧ g ≠ [] ∧
      (∀ c ∈ g, c ≠ '>') ∧ ContMOK m := by
  induction s generalizing g with
  | nil => exact absurd h (by simp [bestSplit])
  | cons c r ih =>
    unfold bestSplit at h
    split at h
    case isTrue => exact absurd h (by simp)
    case isFalse hc =>
    split at h
    case h_1 g' m' hbs =>
      rcases (Prod.mk.injEq _ _ _ _).mp (Option.some.injEq _ _ |>.mp h) with ⟨hg, hm⟩
      subst hg
      subst hm
      rcases ih hbs with ⟨h1, _, h3, h4⟩
      refine ⟨by rw [List.cons_append, List.cons_append, ← h1], by simp, ?_, h4⟩
      intro d hd
      rcases List.mem_cons.mp hd with rfl | hd
      · exact hc
      · exact h3 d hd
    case h_2 hbs =>
    split at h
    case h_2 => exact absurd h (by simp)
    case h_1 m' hcm =>
      rcases (Prod.mk.injEq _ _ _ _).mp (Option.some.injEq _ _ |>.mp h) with ⟨hg, hm⟩
      subst hg
      subst hm
      refine ⟨?_, by simp, ?_, (contMatch_some hcm).2⟩
      · rw [(contMatch_some hcm).1]
        simp
      · intro d hd
        rcases List.mem_cons.mp hd with rfl | hd
        · exact hc
        · simp at hd

theorem tagMatch_none_of_no_tag {tag lit s : List Char} (h : ¬ tag <+: s) :
    tagMatch tag lit s = none := by
  unfold tagMatch
  rw [if_neg]
  simp only [List.isPrefixOf_iff_prefix]
  exact h

theorem tagMatch_eval (tag lit u : List Char) :
    tagMatch tag lit (tag ++ u) = bestSplit lit u := by
  unfold tagMatch
  rw [if_pos (List.isPrefixOf_iff_prefix.mpr ⟨_, rfl⟩), List.drop_left]

theorem tagMatch_some {tag lit s g : List Char} {m : ContM}
    (h : tagMatch tag lit s = some (g, m)) :
    s = tag ++ g ++ lit ++ m.q :: '/' :: (m.path ++ m.q2 :: m.rest) ∧ g ≠ [] ∧
      (∀ c ∈ g, c ≠ '>') ∧ ContMOK m := by
  unfold tagMatch at h
  split at h
  case isFalse => exact absurd h (by simp)
  case isTrue hp =>
  have hs : s = tag ++ s.drop tag.length := by
    rcases List.isPrefixOf_iff_prefix.mp hp with ⟨r, rfl⟩
    rw [List.drop_left]
  rcases bestSplit_some h with ⟨h1, h2, h3, h4⟩
  exact ⟨by rw [hs, h1]; simp, h2, h3, h4⟩

theorem tagMatch_rest_lt {tag lit s g : List Char} {m : ContM}
    (h : tagMatch tag lit s = some (g, m)) : m.rest.length + 4 ≤ s.length := by
  rcases tagMatch_some h with ⟨h1, h2, _, _, _, hpne, _⟩
  have hlen := congrArg List.length h1
  simp only [List.length_append, List.length_cons] at hlen
  have hg : 1 ≤ g.length := by
    cases g
    · exact absurd rfl h2
    · simp
  have hpth : 1 ≤ m.path.length := by
    cases hph : m.path
    · exact absurd hph hpne
    · simp [hph]
  omega

/-! ## The global tag-regex replace pass

One pass of `html.replace(/(TAG[^>]+LIT["'])\\/([^"']+)(["'])/g, cb)` where the
callback emits `prefix ++ normalizedBase ++ path ++ suffix` (group 1, the base,
group 2, group 3): the leading `/` of the URL is consumed and replaced by the
normalized base. -/

def replacePassF (tag lit nb : List Char) : Nat → List Char → List Char
  | _, [] => []
  | 0, s => s
  | fuel + 1, c :: t =>
    match tagMatch tag lit (c :: t) with
    | some (g, m) =>
      tag ++ g ++ lit ++ m.q :: (nb ++ m.path ++ m.q2 :: replacePassF tag lit nb fuel m.rest)
    | none => c :: replacePassF tag lit nb fuel t

theorem replacePassF_fuel (tag lit nb : List Char) :
    ∀ f1 : Nat, ∀ s : List Char, ∀ f2 : Nat, s.length ≤ f1 → s.length ≤ f2 →
      replacePassF tag lit nb f1 s = replacePassF tag lit nb f2 s := by
  intro f1
  induction f1 with
  | zero =>
    intro s f2 h1 _
    have : s = [] := List.length_eq_zero.mp (Nat.le_zero.mp h1)
    subst this
    cases f2 <;> rfl
  | succ f ih =>
    intro s f2 h1 h2
    cases s with
    | nil => cases f2 <;> rfl
    | cons c t =>
      cases f2 with
      | zero => simp at h2
      | succ f2' =>
        simp only [replacePassF]
        rcases htm : tagMatch tag lit (c :: t) with _ | ⟨g, m⟩
        · simp only []
          congr 1
          refine ih _ _ ?_ ?_ <;> simp only [List.length_cons] at h1 h2 <;> omega
        · simp only []
          have hlt := tagMatch_rest_lt htm
          simp only [List.length_cons] at h1 h2 hlt
          rw [ih m.rest f2' (by omega) (by omega)]

/-- One global replace pass of the tag regex. -/
def replacePass (tag lit nb s : List Char) : List Char :=
  replacePassF tag lit nb s.length s

theorem replacePass_nil (tag lit nb : List Char) : replacePass tag lit nb [] = [] := rfl

theorem replacePass_skip {tag lit : List Char} (nb : List Char) {c : Char} {t : List Char}
    (h : tagMatch tag lit (c :: t) = none) :
    replacePass tag lit nb (c :: t) = c :: replacePass tag lit nb t := by
  show replacePassF tag lit nb (t.length + 1) (c :: t) = _
  simp only [replacePassF, h]
  rfl

theorem replacePass_match {tag lit : List Char} (nb : List Char) {c : Char}
    {t g : List Char} {m : ContM} (h : tagMatch tag lit (c :: t) = some (g, m)) :
    replacePass tag lit nb (c :: t) =
      tag ++ g ++ lit ++ m.q :: (nb ++ m.path ++ m.q2 :: replacePass tag lit nb m.rest) := by
  show replacePassF tag lit nb (t.length + 1) (c :: t) = _
  simp only [replacePassF, h]
  have hlt := tagMatch_rest_lt h
  simp only [List.length_cons] at hlt
  rw [replacePassF_fuel tag lit nb t.length m.rest m.rest.length (by omega) (le_refl _)]
  rfl

theorem replacePass_append_skip {tag lit : List Char} (nb : List Char) {a t : List Char}
    (h : ∀ n < a.length, tagMatch tag lit (a.drop n ++ t) = none) :
    replacePass tag lit nb (a ++ t) = a ++ replacePass tag lit nb t := by
  induction a with
  | nil => rfl
  | cons c a' ih =>
    rw [List.cons_append, replacePass_skip nb (by simpa using h 0 (by simp))]
    rw [ih (fun n hn => by simpa using h (n + 1) (by simpa using hn))]
    rfl

/-- Skipping a segment that does not contain the tag-opening character. -/
theorem replacePass_skip_seg {tag lit : List Char} (nb : List Char) {a t : List Char}
    {ch : Char} (hp : tag[0]? = some ch) (hch : ch ∉ a) :
    replacePass tag lit nb (a ++ t) = a ++ replacePass tag lit nb t :=
  replacePass_append_skip nb fun n hn =>
    tagMatch_none_of_no_tag (kill_head hp hch t n hn)

/-- Skipping a segment on which every potential tag occurrence dies early. -/
theorem replacePass_skip_die {tag lit : List Char} (nb : List Char) {a : List Char}
    (t : List Char) (h : allStartsDie tag a = true) :
    replacePass tag lit nb (a ++ t) = a ++ replacePass tag lit nb t :=
  replacePass_append_skip nb fun n hn =>
    tagMatch_none_of_no_tag (allStartsDie_spec h t n hn)

theorem replacePass_all_skip {tag lit : List Char} (nb : List Char) {s : List Char}
    (h : ∀ n < s.length, tagMatch tag lit (s.drop n) = none) :
    replacePass tag lit nb s = s := by
  have := replacePass_append_skip (t := []) nb
    (a := s) (fun n hn => by simpa using h n hn)
  simpa [replacePass_nil] using this

theorem replacePass_all_die {tag lit : List Char} (nb : List Char) {s : List Char}
    (h : allStartsDie tag s = true) : replacePass tag lit nb s = s := by
  have := @replacePass_skip_die tag lit nb s [] h
  simpa [replacePass_nil] using this

/-! ## Killers: sufficient conditions for the continuation match to fail -/

/-- No quote characters occur in the list. -/
def noQuote (l : List Char) : Prop := ∀ c ∈ l, isQuote c = false

/-- No `>` occurs in the list. -/
def noGt (l : List Char) : Prop := ∀ c ∈ l, c ≠ '>'

/-- Well-formedness of the literal attribute text (`src=` or `href=`). -/
def litOK (lit : List Char) : Prop :=
  lit ≠ [] ∧ noQuote lit ∧ noGt lit ∧ ∀ c ∈ lit, c ≠ '/'

theorem contMatch_none_inner {lit s : List Char} {d : Char} {p : Nat}
    (hch : d ∉ lit) (hp : p < lit.length) (hs : s[p]? = some d) :
    contMatch lit s = none := by
  rcases hcm : contMatch lit s with _ | m
  · rfl
  exfalso
  rcases contMatch_some hcm with ⟨hd, _⟩
  have h1 : s[p]? = lit[p]? := by rw [hd, List.getElem?_append_left hp]
  rw [hs] at h1
  exact hch (List.getElem?_mem h1.symm)

theorem contMatch_none_no_quote {lit s : List Char}
    (h : ∀ ch, s[lit.length]? = some ch → isQuote ch = false) :
    contMatch lit s = none := by
  rcases hcm : contMatch lit s with _ | m
  · rfl
  exfalso
  rcases contMatch_some hcm with ⟨hd, hok⟩
  have h1 : s[lit.length]? = some m.q := by
    rw [hd, List.getElem?_append_right (le_refl _)]
    simp
  have hq := hok.1
  rw [h m.q h1] at hq
  exact Bool.false_ne_true hq

theorem contMatch_none_no_slash {lit s : List Char}
    (h : ∀ ch, s[lit.length + 1]? = some ch → ch ≠ '/') :
    contMatch lit s = none := by
  rcases hcm : contMatch lit s with _ | m
  · rfl
  exfalso
  rcases contMatch_some hcm with ⟨hd, _⟩
  refine h '/' ?_ rfl
  rw [hd, List.getElem?_append_right (by omega)]
  have : lit.length + 1 - lit.length = 1 := by omega
  rw [this]
  simp

/-- The continuation cannot match anywhere on a quote-free run followed by a
closing quote, unless the literal were a suffix of the run. -/
theorem contMatch_none_url {lit u w : List Char} {q2 : Char}
    (hlq : noQuote lit) (hu : noQuote u)
    (hq2 : isQuote q2 = true) (hsuf : ¬ lit <:+ u) :
    contMatch lit (u ++ q2 :: w) = none := by
  rcases Nat.lt_trichotomy lit.length u.length with hlt | heq | hgt
  · refine contMatch_none_no_quote fun ch hch => ?_
    rw [List.getElem?_append_left hlt] at hch
    exact hu ch (List.getElem?_mem hch)
  · rcases hcm : contMatch lit (u ++ q2 :: w) with _ | m
    · rfl
    exfalso
    rcases contMatch_some hcm with ⟨hd, _⟩
    have hpre : lit <+: (u ++ q2 :: w) := ⟨_, hd.symm⟩
    have hlit_eq : lit = u := by
      have h1 : lit = (u ++ q2 :: w).take lit.length := by
        rcases hpre with ⟨r, hr⟩
        rw [← hr, List.take_left]
      rw [h1, heq, List.take_left]
    exact hsuf (hlit_eq ▸ List.suffix_refl lit)
  · refine contMatch_none_inner (d := q2) ?_ hgt ?_
    · intro hmem
      rw [hlq q2 hmem] at hq2
      exact Bool.false_ne_true hq2
    · rw [List.getElem?_append_right (le_refl _)]
      simp

/-- The continuation cannot match on a quote-free run followed by `>`. -/
theorem contMatch_none_post {lit p' rest : List Char}
    (hlg : noGt lit) (hp' : noQuote p') :
    contMatch lit (p' ++ '>' :: rest) = none := by
  rcases Nat.lt_trichotomy lit.length p'.length with hlt | heq | hgt
  · refine contMatch_none_no_quote fun ch hch => ?_
    rw [List.getElem?_append_left hlt] at hch
    exact hp' ch (List.getElem?_mem hch)
  · refine contMatch_none_no_quote fun ch hch => ?_
    rw [heq, List.getElem?_append_right (le_refl _)] at hch
    simp at hch
    subst hch
    rfl
  · refine contMatch_none_inner (d := '>') (hlg '>' · rfl) hgt ?_
    rw [List.getElem?_append_right (le_refl _)]
    simp

/-! ## Composition lemmas for the greedy split -/

theorem bestSplit_append_none {lit seg t : List Char} (hseg : noGt seg)
    (hbs : bestSplit lit t = none)
    (hcont : ∀ k, 1 ≤ k → k ≤ seg.length → contMatch lit (seg.drop k ++ t) = none) :
    bestSplit lit (seg ++ t) = none := by
  induction seg with
  | nil => simpa using hbs
  | cons c cs ih =>
    rw [List.cons_append]
    refine bestSplit_cons_none (hseg c (by simp)) ?_ ?_
    · refine ih (fun d hd => hseg d (by simp [hd])) ?_
      intro k hk1 hk2
      simpa using hcont (k + 1) (by omega) (by simpa using hk2)
    · simpa using hcont 1 (le_refl _) (by simp)

theorem bestSplit_designate {lit seg t : List Char} {m : ContM}
    (hseg : noGt seg) (hne : seg ≠ [])
    (hbs : bestSplit lit t = none) (hcm : contMatch lit t = some m)
    (hcont : ∀ k, 1 ≤ k → k < seg.length → contMatch lit (seg.drop k ++ t) = none) :
    bestSplit lit (seg ++ t) = some (seg, m) := by
  induction seg with
  | nil => exact absurd rfl hne
  | cons c cs ih =>
    cases cs with
    | nil =>
      rw [List.cons_append, List.nil_append]
      exact bestSplit_cons_cont (hseg c (by simp)) hbs hcm
    | cons c2 cs2 =>
      rw [List.cons_append]
      refine bestSplit_cons_deep (hseg c (by simp)) ?_
      refine ih (fun d hd => hseg d (by simp [hd])) (by simp) ?_
      intro k hk1 hk2
      simpa using hcont (k + 1) (by omega) (by simpa using hk2)

theorem bestSplit_prepend {lit seg t g : List Char} {m : ContM} (hseg : noGt seg)
    (h : bestSplit lit t = some (g, m)) :
    bestSplit lit (seg ++ t) = some (seg ++ g, m) := by
  induction seg with
  | nil => simpa using h
  | cons c cs ih =>
    rw [List.cons_append]
    have := bestSplit_cons_deep (hseg c (by simp)) (ih (fun d hd => hseg d (by simp [hd])))
    simpa using this

/-- The continuation text `LIT q / url q2 post > rest` admits no split of its
own: every candidate continuation start inside it fails. -/
theorem bestSplit_contText_none {lit u post rest : List Char} {q q2 : Char}
    (hlit : litOK lit) (hq : isQuote q = true) (hq2 : isQuote q2 = true)
    (huq : noQuote u) (hug : noGt u) (hsuf : ¬ lit <:+ u)
    (hpq : noQuote post) (hpg : noGt post) :
    bestSplit lit (lit ++ q :: '/' :: (u ++ q2 :: (post ++ '>' :: rest))) = none := by
  obtain ⟨hlne, hlq, hlg, hls⟩ := hlit
  have hqnotin : q ∉ lit := fun hmem => by
    rw [hlq q hmem] at hq; exact Bool.false_ne_true hq
  have hcont_post : ∀ j ≤ post.length,
      contMatch lit (post.drop j ++ '>' :: rest) = none := fun j _ =>
    contMatch_none_post hlg (fun d hd => hpq d (List.mem_of_mem_drop hd))
  have hbs_post : bestSplit lit (post ++ '>' :: rest) = none := by
    refine bestSplit_append_none hpg (bestSplit_gtChar _ _) ?_
    intro k _ hk2
    exact hcont_post k hk2
  have hcm_post : contMatch lit (post ++ '>' :: rest) = none := by
    simpa using hcont_post 0 (by omega)
  have hbs_q2 : bestSplit lit (q2 :: (post ++ '>' :: rest)) = none := by
    refine bestSplit_cons_none ?_ hbs_post hcm_post
    intro hgt
    rw [hgt] at hq2
    simp [isQuote] at hq2
  have hcont_u : ∀ j ≤ u.length,
      contMatch lit (u.drop j ++ q2 :: (post ++ '>' :: rest)) = none := by
    intro j _
    refine contMatch_none_url hlq (fun d hd => huq d (List.mem_of_mem_drop hd)) hq2 ?_
    intro hsf
    exact hsuf (hsf.trans (List.drop_suffix j u))
  have hbs_u : bestSplit lit (u ++ q2 :: (post ++ '>' :: rest)) = none := by
    refine bestSplit_append_none hug hbs_q2 ?_
    intro k _ hk2
    exact hcont_u k hk2
  -- peel the leading `lit ++ [q, '/']`
  have hshape : lit ++ q :: '/' :: (u ++ q2 :: (post ++ '>' :: rest)) =
      (lit ++ [q, '/']) ++ (u ++ q2 :: (post ++ '>' :: rest)) := by
    simp
  rw [hshape]
  refine bestSplit_append_none ?_ hbs_u ?_
  · intro d hd
    rcases List.mem_append.mp hd with hd | hd
    · exact hlg d hd
    · simp at hd
      rcases hd with rfl | rfl
      · intro hgt; rw [hgt] at hq; simp [isQuote] at hq
      · decide
  · intro k hk1 hk2
    simp only [List.length_append, List.length_cons, List.length_nil] at hk2
    rcases Nat.lt_trichotomy k lit.length with hcase | hcase | hcase
    · -- inside `lit`: the opening quote `q` sits at offset `lit.length - k < lit.length`
      refine contMatch_none_inner (d := q) hqnotin (p := lit.length - k) (by omega) ?_
      rw [List.drop_append_of_le_length (by omega)]
      rw [List.append_assoc, List.getElem?_append_right (by simp)]
      simp only [List.length_drop]
      have h0 : lit.length - k - (lit.length - k) = 0 := by omega
      rw [h0]
      simp
    · -- exactly at the quote
      subst hcase
      have hdrop : (lit ++ [q, '/']).drop lit.length = [q, '/'] := List.drop_left _ _
      rw [hdrop]
      refine contMatch_none_inner (d := q) hqnotin (p := 0) ?_ (by simp)
      cases hl : lit with
      | nil => exact absurd hl hlne
      | cons a b => simp
    · -- at the slash or at the url
      have hk : k = lit.length + 1 ∨ k = lit.length + 2 := by omega
      rcases hk with rfl | rfl
      · have hdrop : (lit ++ [q, '/']).drop (lit.length + 1) = ['/'] := by
          rw [show lit ++ [q, '/'] = (lit ++ [q]) ++ ['/'] by simp]
          rw [List.drop_append_of_le_length (by simp)]
          simp
        rw [hdrop]
        refine contMatch_none_inner (d := '/') (hls '/' · rfl) (p := 0) ?_ (by simp)
        cases hl : lit with
        | nil => exact absurd hl hlne
        | cons a b => simp
      · have hdrop : (lit ++ [q, '/']).drop (lit.length + 2) = [] := by
          apply List.drop_eq_nil_of_le
          simp
        rw [hdrop, List.nil_append]
        simpa using hcont_u 0 (by omega)

theorem contMatch_none_not_lit {lit s : List Char} (h : ¬ lit <+: s) :
    contMatch lit s = none := by
  unfold contMatch
  rw [if_neg]
  simp only [List.isPrefixOf_iff_prefix]
  exact h

/-- Discharge the gap-killing obligation by a head character of the literal
that does not occur in the gap. -/
theorem kill_by_head {lit a : List Char} {c0 : Char}
    (hl : lit[0]? = some c0) (hc : c0 ∉ a) (t : List Char) :
    ∀ k, 1 ≤ k → k < a.length → contMatch lit (a.drop k ++ t) = none :=
  fun k _ hk2 => contMatch_none_not_lit (kill_head hl hc t k hk2)

/-- Discharge the gap-killing obligation when both the gap and the literal are
quote free: the opening-quote position of any inner candidate lands in the
quote-free region. -/
theorem kill_by_quote {lit a t : List Char} (hlq : noQuote lit) (haq : noQuote a) :
    ∀ k, 1 ≤ k → k < a.length → contMatch lit (a.drop k ++ (lit ++ t)) = none := by
  intro k hk1 hk2
  refine contMatch_none_no_quote fun ch hch => ?_
  have hdlen : (a.drop k).length = a.length - k := List.length_drop k a
  by_cases hcase : lit.length < a.length - k
  · rw [List.getElem?_append_left (by omega)] at hch
    exact haq ch (List.mem_of_mem_drop (List.getElem?_mem hch))
  · have h1 : (a.drop k).length ≤ lit.length := by rw [hdlen]; omega
    rw [List.getElem?_append_right h1] at hch
    have h2 : lit.length - (a.drop k).length < lit.length := by rw [hdlen]; omega
    rw [List.getElem?_append_left h2] at hch
    exact hlq ch (List.getElem?_mem hch)

/-- The designated match of a well-shaped tag: the greedy gap is exactly the
attribute text `a`, the path group is exactly the quote-free URL tail `u`. -/
theorem tagMatch_designate {tag lit a u post rest : List Char} {q q2 : Char}
    (hlit : litOK lit) (hq : isQuote q = true) (hq2 : isQuote q2 = true)
    (hag : noGt a) (hane : a ≠ [])
    (hune : u ≠ []) (huq : noQuote u) (hug : noGt u) (hsuf : ¬ lit <:+ u)
    (hpq : noQuote post) (hpg : noGt post)
    (hkill : ∀ k, 1 ≤ k → k < a.length →
      contMatch lit (a.drop k ++ (lit ++ q :: '/' :: (u ++ q2 :: (post ++ '>' :: rest)))) =
        none) :
    tagMatch tag lit (tag ++ (a ++ (lit ++ q :: '/' :: (u ++ q2 :: (post ++ '>' :: rest))))) =
      some (a, ⟨q, u, q2, post ++ '>' :: rest⟩) := by
  rw [tagMatch_eval]
  refine bestSplit_designate hag hane ?_ ?_ hkill
  · exact bestSplit_contText_none hlit hq hq2 huq hug hsuf hpq hpg
  · exact contMatch_mk hq hq2 hune huq

/-- No match on a well-shaped tag whose URL does not begin with `/`. -/
theorem tagMatch_none_noslash {tag lit a u post rest : List Char} {q q2 : Char}
    (hlit : litOK lit) (hq : isQuote q = true) (hq2 : isQuote q2 = true)
    (hag : noGt a)
    (hu0 : ∀ ch, u[0]? = some ch → ch ≠ '/')
    (huq : noQuote u) (hug : noGt u) (hsuf : ¬ lit <:+ u)
    (hpq : noQuote post) (hpg : noGt post)
    (hkill : ∀ k, 1 ≤ k → k < a.length →
      contMatch lit (a.drop k ++ (lit ++ q :: (u ++ q2 :: (post ++ '>' :: rest)))) = none) :
    tagMatch tag lit (tag ++ (a ++ (lit ++ q :: (u ++ q2 :: (post ++ '>' :: rest))))) =
      none := by
  obtain ⟨hlne, hlq, hlg, hls⟩ := hlit
  have hqnotin : q ∉ lit := fun hmem => by
    rw [hlq q hmem] at hq; exact Bool.false_ne_true hq
  have hcont_post : contMatch lit (post ++ '>' :: rest) = none :=
    contMatch_none_post hlg hpq
  have hbs_post : bestSplit lit (post ++ '>' :: rest) = none := by
    refine bestSplit_append_none hpg (bestSplit_gtChar _ _) ?_
    intro k _ _
    exact contMatch_none_post hlg (fun d hd => hpq d (List.mem_of_mem_drop hd))
  have hbs_q2 : bestSplit lit (q2 :: (post ++ '>' :: rest)) = none := by
    refine bestSplit_cons_none ?_ hbs_post hcont_post
    intro hgt
    rw [hgt] at hq2
    simp [isQuote] at hq2
  have hcont_u : ∀ j ≤ u.length,
      contMatch lit (u.drop j ++ q2 :: (post ++ '>' :: rest)) = none := by
    intro j _
    refine contMatch_none_url hlq (fun d hd => huq d (List.mem_of_mem_drop hd)) hq2 ?_
    intro hsf
    exact hsuf (hsf.trans (List.drop_suffix j u))
  have hbs_u : bestSplit lit (u ++ q2 :: (post ++ '>' :: rest)) = none := by
    refine bestSplit_append_none hug hbs_q2 ?_
    intro k _ hk2
    exact hcont_u k hk2
  have hbsT : bestSplit lit (lit ++ q :: (u ++ q2 :: (post ++ '>' :: rest))) = none := by
    have hshape : lit ++ q :: (u ++ q2 :: (post ++ '>' :: rest)) =
        (lit ++ [q]) ++ (u ++ q2 :: (post ++ '>' :: rest)) := by
      simp
    rw [hshape]
    refine bestSplit_append_none ?_ hbs_u ?_
    · intro d hd
      rcases List.mem_append.mp hd with hd | hd
      · exact hlg d hd
      · simp at hd; subst hd
        intro hgt; rw [hgt] at hq; simp [isQuote] at hq
    · intro k hk1 hk2
      simp only [List.length_append, List.length_cons, List.length_nil] at hk2
      rcases Nat.lt_trichotomy k lit.length with hcase | hcase | hcase
      · refine contMatch_none_inner (d := q) hqnotin (p := lit.length - k) (by omega) ?_
        rw [List.drop_append_of_le_length (by omega)]
        rw [List.append_assoc, List.getElem?_append_right (by simp)]
        simp only [List.length_drop]
        have h0 : lit.length - k - (lit.length - k) = 0 := by omega
        rw [h0]
        simp
      · subst hcase
        have hdrop : (lit ++ [q]).drop lit.length = [q] := List.drop_left _ _
        rw [hdrop]
        refine contMatch_none_inner (d := q) hqnotin (p := 0) ?_ (by simp)
        cases hl : lit with
        | nil => exact absurd hl hlne
        | cons x b => simp
      · have hk : k = lit.length + 1 := by omega
        subst hk
        have hdrop : (lit ++ [q]).drop (lit.length + 1) = [] := by
          apply List.drop_eq_nil_of_le
          simp
        rw [hdrop, List.nil_append]
        simpa using hcont_u 0 (by omega)
  have hdesig : contMatch lit (lit ++ q :: (u ++ q2 :: (post ++ '>' :: rest))) = none := by
    refine contMatch_none_no_slash fun ch hch => ?_
    rw [List.getElem?_append_right (by omega)] at hch
    have h1 : lit.length + 1 - lit.length = 1 := by omega
    rw [h1] at hch
    simp only [List.getElem?_cons_succ] at hch
    cases hu : u with
    | nil =>
      rw [hu] at hch
      simp at hch
      subst hch
      intro hsl
      rw [hsl] at hq2
      simp [isQuote] at hq2
    | cons x b =>
      subst hu
      simp only [List.cons_append, List.getElem?_cons_zero] at hch
      have hx : x = ch := by simpa using hch
      subst hx
      exact hu0 x (by simp)
  rw [tagMatch_eval]
  refine bestSplit_append_none hag hbsT ?_
  intro k hk1 hk2
  rcases Nat.lt_or_ge k a.length with hlt | hge
  · exact hkill k hk1 hlt
  · have hk : k = a.length := by omega
    subst hk
    rw [List.drop_length, List.nil_append]
    exact hdesig

/-! ## Model of WHATWG URL parsing (`new URL(input)` with no base)

`isAbsoluteUrl` in the source is `try { new URL(url); return true } catch
{ return false }`.  We model the success/failure behaviour (and the parsed
scheme/host) of the WHATWG basic URL parser with no base:

* leading/trailing C0-control-or-space trimming and removal of all ASCII
  tab/LF/CR;
* a scheme (ASCII alpha, then alphanumeric / `+` / `-` / `.`) followed by `:`
  is required — otherwise failure;
* special schemes (`http` `https` `ws` `wss` `ftp`) skip any run of `/` and
  `\` then parse an authority whose host must be nonempty and free of
  forbidden host code points, with an optional all-digit port below 2^16;
* `file` does the same but allows an empty host;
* other schemes parse an authority only after a literal `//` (empty host
  allowed) and otherwise succeed with an opaque path and no host.

Simplifications (documented): IDNA/punycode normalization, percent-decoding,
IPv4/IPv6 host forms and the exact host *value* for exotic `file:` URLs are
not modelled; none of the inputs reasoned about below exercise them. -/

structure URLRec where
  scheme : String
  host : Option String
  deriving DecidableEq

def isC0OrSpace (c : Char) : Bool := decide (c.toNat ≤ 0x20)

def isTabOrNewline (c : Char) : Bool := c.toNat == 9 || c.toNat == 10 || c.toNat == 13

def urlPreprocess (s : List Char) : List Char :=
  let t1 := s.dropWhile isC0OrSpace
  let t2 := (t1.reverse.dropWhile isC0OrSpace).reverse
  t2.filter (fun c => !isTabOrNewline c)

def isSchemeStart (c : Char) : Bool := c.isAlpha

def isSchemeChar (c : Char) : Bool := c.isAlpha || c.isDigit || c == '+' || c == '-' || c == '.'

def lowerStr (l : List Char) : List Char := l.map Char.toLower

def specialSchemes : List (List Char) :=
  ["http".data, "https".data, "ws".data, "wss".data, "ftp".data]

def isForbiddenHostChar (c : Char) : Bool :=
  c.val == 0 || c == ' ' || c == '#' || c == '/' || c == ':' || c == '<' || c == '>' ||
    c == '?' || c == '@' || c == '[' || c == '\\' || c == ']' || c == '^' || c == '|'

def portOK (l : List Char) : Bool :=
  l.all Char.isDigit && decide (l.foldl (fun acc c => acc * 10 + (c.toNat - 48)) 0 ≤ 65535)

/-- The host part of an authority: everything after the last `@`. -/
def afterLastAt (auth : List Char) : List Char :=
  (auth.reverse.takeWhile (fun c => c ≠ '@')).reverse

def isAuthorityDelim (c : Char) : Bool := c == '/' || c == '\\' || c == '?' || c == '#'

def parseAuthority (scheme : String) (allowEmptyHost : Bool) (r : List Char) :
    Option URLRec :=
  let auth := r.takeWhile (fun c => !isAuthorityDelim c)
  let hp := afterLastAt auth
  let host := hp.takeWhile (fun c => c ≠ ':')
  let portStr := (hp.dropWhile (fun c => c ≠ ':')).drop 1
  if (allowEmptyHost || !host.isEmpty) && host.all (fun c => !isForbiddenHostChar c) &&
      portOK portStr then
    some ⟨scheme, some (String.mk host)⟩
  else
    none

def parseURL (url : String) : Option URLRec :=
  let cs := urlPreprocess url.data
  match cs with
  | [] => none
  | c :: _ =>
    if isSchemeStart c then
      let schemeChars := cs.takeWhile isSchemeChar
      match cs.drop schemeChars.length with
      | ':' :: r =>
        let low := lowerStr schemeChars
        let scheme := String.mk low
        if low ∈ specialSchemes then
          parseAuthority scheme false (r.dropWhile (fun c => c == '/' || c == '\\'))
        else if low = "file".data then
          parseAuthority scheme true (r.dropWhile (fun c => c == '/' || c == '\\'))
        else
          match r with
          | '/' :: '/' :: r2 => parseAuthority scheme true r2
          | _ => some ⟨scheme, none⟩
      | _ => none
    else none

/-! ## Shallow embedding of the source (`src/index.ts`, current version) -/

/-- `isAbsoluteUrl` from the source: `try \x7b new URL(url); return true \x7d
catch \x7b return false \x7d`. -/
def isAbsoluteUrl (url : String) : Bool := (parseURL url).isSome

def scriptTag : List Char := "<script".data
def srcLit : List Char := "src=".data
def linkTag : List Char := "<link".data
def hrefLit : List Char := "href=".data

/-- `baseUrl.endsWith("/") ? baseUrl : baseUrl + "/"` — a string ends with the
one-character suffix `/` exactly when its last character is `/`. -/
def normalizedBaseChars (baseUrl : String) : List Char :=
  if baseUrl.data.getLast? = some '/' then baseUrl.data else baseUrl.data ++ ['/']

/-- `transformHtmlWithAbsoluteUrls` from the source: normalize the base to end
in `/`, then run the global script-src regex replace, then the global
link-href regex replace. -/
def transformHtmlWithAbsoluteUrls (html baseUrl : String) : String :=
  let nb := normalizedBaseChars baseUrl
  let h1 := replacePass scriptTag srcLit nb html.data
  let h2 := replacePass linkTag hrefLit nb h1
  String.mk h2

/-- `generateWidgetEntrypointHTML` from the source.  The source builds a
template literal and calls `.trim()`; the interpolated widget name is not
adjacent to either end, so the trim only removes the fixed leading newline and
trailing `\n  `, which we account for directly. -/
def generateWidgetEntrypointHTML (widgetName : String) : String :=
  "<!DOCTYPE html>\n<html lang=\"en\">\n  <head>\n    <meta charset=\"UTF-8\" />\n    <meta name=\"viewport\" content=\"width=device-width, initial-scale=1.0\" />\n    <title>" ++
    widgetName ++
    " Widget</title>\n  </head>\n  <body>\n    <div id=\"root\"></div>\n    <script type=\"module\" src=\"virtual:chatgpt-widget-entrypoint-" ++
    widgetName ++
    ".js\"></script>\n  </body>\n</html>"

/-- Plugin options (`ChatGPTWidgetPluginOptions`): both fields optional. -/
structure ChatGPTWidgetPluginOptions where
  widgetsDir : Option String := none
  baseUrl : Option String := none
  deriving DecidableEq

/-- `options.widgetsDir || "web/chatgpt"` with JavaScript string truthiness
(`undefined` and the empty string both fall back to the default). -/
def pluginWidgetsDir (options : ChatGPTWidgetPluginOptions) : String :=
  match options.widgetsDir with
  | some s => if s = "" then "web/chatgpt" else s
  | none => "web/chatgpt"

/-- `pluginBaseUrl && isAbsoluteUrl(pluginBaseUrl)` from `configResolved`. -/
def hasAbsolutePluginBaseUrl (options : ChatGPTWidgetPluginOptions) : Bool :=
  match options.baseUrl with
  | some s => !(s == "") && isAbsoluteUrl s
  | none => false

/-- `viteBase && isAbsoluteUrl(viteBase)` from `configResolved`. -/
def hasAbsoluteViteBase (viteBase : String) : Bool :=
  !(viteBase == "") && isAbsoluteUrl viteBase

/-- Whether the `configResolved` hook throws: it does exactly when neither the
plugin option nor the resolved Vite base is a truthy absolute URL. -/
def configResolvedThrows (options : ChatGPTWidgetPluginOptions) (viteBase : String) : Bool :=
  !hasAbsolutePluginBaseUrl options && !hasAbsoluteViteBase viteBase

/-! ### Node `path` model (POSIX)

Segment-based normalization: empty and `.` segments collapse, `..` pops.
Trailing-slash preservation of `path.join`/`path.normalize` is not modelled
(no input in this development carries a trailing slash).  Everything is
implemented structurally on `List Char` so that concrete instances evaluate
inside the kernel. -/

def splitSlash : List Char → List (List Char)
  | [] => [[]]
  | c :: t =>
    let r := splitSlash t
    if c = '/' then [] :: r
    else
      match r with
      | h :: t' => (c :: h) :: t'
      | [] => [[c]]

def intercalSlash : List (List Char) → List Char
  | [] => []
  | [x] => x
  | x :: xs => x ++ '/' :: intercalSlash xs

def pathNormAux (isAbs : Bool) : List (List Char) → List (List Char) → List (List Char)
  | acc, [] => acc.reverse
  | acc, seg :: rest =>
    if seg = [] || seg = ['.'] then pathNormAux isAbs acc rest
    else if seg = ['.', '.'] then
      match acc with
      | top :: accRest =>
        if top = ['.', '.'] then pathNormAux isAbs (seg :: top :: accRest) rest
        else pathNormAux isAbs accRest rest
      | [] => if isAbs then pathNormAux isAbs [] rest else pathNormAux isAbs [seg] rest
    else pathNormAux isAbs (seg :: acc) rest

def isAbsPath : List Char → Bool
  | '/' :: _ => true
  | _ => false

def pathNormalizeL (p : List Char) : List Char :=
  let isAbs := isAbsPath p
  let segs := pathNormAux isAbs [] (splitSlash p)
  let joined := intercalSlash segs
  if isAbs then '/' :: joined else if joined = [] then ['.'] else joined

/-- Node `path.join(a, b)`. -/
def pathJoin (a b : String) : String :=
  if a.data = [] ∧ b.data = [] then "."
  else String.mk (pathNormalizeL (a.data ++ '/' :: b.data))

/-- Node `path.resolve(cwd, p)` for an absolute `cwd`. -/
def pathResolve (cwd p : String) : String :=
  if isAbsPath p.data then String.mk (pathNormalizeL p.data)
  else String.mk (pathNormalizeL (cwd.data ++ '/' :: p.data))

/-- Node `path.dirname`. -/
def pathDirname (p : String) : String :=
  let isAbs := isAbsPath p.data
  let segs := (splitSlash p.data).filter (fun s => s ≠ [])
  match segs.dropLast with
  | [] => if isAbs then "/" else "."
  | segs' => String.mk ((if isAbs then ['/'] else []) ++ intercalSlash segs')

/-- Node `path.extname` for a bare filename (no directory separators). -/
def extname (f : String) : String :=
  let r := f.data.reverse.takeWhile (fun c => c ≠ '.')
  if r.length = f.data.length then ""
  else if r.length + 1 = f.data.length then ""
  else String.mk ('.' :: r.reverse)

/-- Node `path.basename(file, ext)` for a bare filename. -/
def basenameExt (f ext : String) : String :=
  if ext ≠ "" ∧ f ≠ ext ∧ ext.data.isSuffixOf f.data then
    String.mk (f.data.take (f.data.length - ext.data.length))
  else f

/-- ASCII lower-casing of a character list (JavaScript `toLowerCase` on the
ASCII identifiers used as widget names). -/
def lowerChars (l : List Char) : List Char := l.map Char.toLower

/-! ### Widget discovery and the runtime helpers -/

def supportedExts : List String := [".ts", ".tsx", ".js", ".jsx"]

def ROOT_WIDGET_NAME : String := "root"

/-- `listWidgetFiles` from the source: filter the directory listing to the
supported extensions, derive each name as the stem, skip the reserved `root`
stem case-insensitively, and record `path.join(widgetsDirPath, file)`. -/
def listWidgetFiles (cwd widgetsDir : String) (files : List String) :
    List (String × String) :=
  let widgetsDirPath := pathResolve cwd widgetsDir
  files.filterMap fun file =>
    let ext := extname file
    if ext ∈ supportedExts then
      let name := basenameExt file ext
      if lowerChars name.data = ROOT_WIDGET_NAME.data then none
      else some (pathJoin widgetsDirPath file, name)
    else none

inductive WidgetSource where
  | manifest
  | devServer
  deriving DecidableEq

structure WidgetInfo where
  name : String
  filePath : String
  content : String
  source : WidgetSource
  deriving DecidableEq

/-- The sequential loop body of `getWidgets`: resolve each discovered widget
in order; the first rejection aborts the whole call. -/
def getWidgetsGo (widgetsDirPath : String)
    (getHTML : String → Except String (String × WidgetSource)) :
    List (String × String) → Except String (List WidgetInfo)
  | [] => .ok []
  | (p, name) :: rest =>
    match getHTML name with
    | .error e => .error e
    | .ok (content, source) =>
      match getWidgetsGo widgetsDirPath getHTML rest with
      | .error e => .error e
      | .ok ws =>
        .ok (⟨name, pathJoin widgetsDirPath p, content, source⟩ :: ws)

/-- `getWidgets` from the source.  `dirListing` is `none` when the resolved
widgets directory does not exist (the `exists` guard) and otherwise carries
the `fs.readdir` result; `getHTML` stands for `getWidgetHTML(name, handle)`. -/
def getWidgets (cwd widgetsDir : String) (dirListing : Option (List String))
    (getHTML : String → Except String (String × WidgetSource)) :
    Except String (List WidgetInfo) :=
  let widgetsDirPath := pathResolve cwd widgetsDir
  match dirListing with
  | none => .ok []
  | some files => getWidgetsGo widgetsDirPath getHTML (listWidgetFiles cwd widgetsDirPath files)

/-! ### The production branch of `getWidgetHTML` -/

/-- Oracles for the filesystem and the parsed manifest in production mode. -/
structure ProdFS where
  fsExists : String → Bool
  read : String → String
  hasKey : String → String → Bool

def virtualHtmlId (widgetName : String) : String :=
  "virtual:chatgpt-widget-html-" ++ widgetName ++ ".html"

/-- The production branch of `getWidgetHTML` (error texts abbreviated to their
identifying prefix). `manifestPath?` is the handle field; `??` falls back to
the default exactly when the field is `undefined`/`null`. -/
def getWidgetHTMLProd (fs : ProdFS) (cwd widgetName : String)
    (manifestPath? : Option String) : Except String (String × WidgetSource) :=
  let manifestPath := pathResolve cwd (manifestPath?.getD "dist/.vite/manifest.json")
  if !fs.fsExists manifestPath then
    .error ("Vite manifest not found at " ++ manifestPath)
  else
    let manifestContent := fs.read manifestPath
    let vmid := virtualHtmlId widgetName
    if !fs.hasKey manifestContent vmid then
      .error ("Widget \x27" ++ widgetName ++ "\x27 not found in Vite manifest")
    else
      let buildDir := pathDirname (pathDirname manifestPath)
      let builtHtmlPath := pathJoin buildDir vmid
      if !fs.fsExists builtHtmlPath then
        .error ("Built widget HTML not found at " ++ builtHtmlPath)
      else
        .ok (fs.read builtHtmlPath, .manifest)

/-! ### The load hook and the dev-mode branch of `getWidgetHTML` -/

def strStartsWith (pre s : String) : Bool := pre.data.isPrefixOf s.data

def strEndsWith (suf s : String) : Bool := suf.data.isSuffixOf s.data

/-- The plugin resolveId hook. -/
def resolveIdHook (id : String) : Option String :=
  if strStartsWith "virtual:chatgpt-widget-html-" id && strEndsWith ".html" id then
    some id
  else if strStartsWith "virtual:chatgpt-widget-entrypoint-" id && strEndsWith ".js" id then
    some ("\x00" ++ id)
  else
    none

/-- The virtual-HTML branch of the plugin load hook (the script-entry branch,
whose on-disk lookup is `findWidgetFile` below, is not needed by the claims
about HTML content). -/
def loadHtmlHook (id : String) : Option String :=
  if strStartsWith "virtual:chatgpt-widget-html-" id && strEndsWith ".html" id then
    let widgetName :=
      String.mk (replaceFirst ".html".data []
        (replaceFirst "virtual:chatgpt-widget-html-".data [] id.data))
    some (generateWidgetEntrypointHTML widgetName)
  else
    none

/-- The script-entry file lookup of the load hook: try each supported
extension in the fixed priority order and stop at the first hit. -/
def possibleExtensions : List String := [".tsx", ".ts", ".jsx", ".js"]

def findWidgetFile (fsExists : String → Bool) (root widgetsDir widgetName : String) :
    Option String :=
  let widgetsDirPath := pathResolve root widgetsDir
  (possibleExtensions.find? fun ext =>
      fsExists (pathJoin widgetsDirPath (widgetName ++ ext))).map
    fun ext => "/" ++ widgetsDir ++ "/" ++ widgetName ++ ext

/-- The inline dev-mode shim injected for React Router projects (exact
replacement text from the source; braces and apostrophes written as hex
escapes). -/
def routerShim : String :=
  "<head>\n    <script>\n      // React Router HMR polyfills for standalone widgets\n      // These globals are normally set up by HydratedRouter but we need them for HMR\n      if (typeof window !== \x27undefined\x27) \x7b\n        // Minimal polyfill for the data router - just enough to not crash HMR\n        window.__reactRouterDataRouter = \x7b\n          revalidate: async () => \x7b /* no-op for standalone widgets */ \x7d,\n          createRoutesForHMR: () => [],\n          _internalSetRoutes: () => \x7b /* no-op */ \x7d\n        \x7d;\n        window.__reactRouterManifest = \x7b routes: \x7b\x7d \x7d;\n        window.__reactRouterRouteModules = \x7b\x7d;\n        window.__reactRouterContext = \x7b ssr: false, isSpaMode: true \x7d;\n        window.__reactRouterHdrActive = false;\n        window.__reactRouterRouteModuleUpdates = new Map();\n      \x7d\n    </script>"

/-- The inline dev-mode shim injected for plain React projects (exact
replacement text from the source). -/
def reactShim : String :=
  "<head>\n    <script>\n      // React refresh preamble for @vitejs/plugin-react\n      // These must be defined before React components load\n      if (typeof window !== \x27undefined\x27) \x7b\n        window.__vite_plugin_react_preamble_installed__ = true;\n        window.$RefreshReg$ = () => \x7b\x7d;\n        window.$RefreshSig$ = () => (type) => type;\n      \x7d\n    </script>"

/-- The post-order `transformIndexHtml` handler of the plugin. -/
def transformIndexHtmlHandler (command : String) (pluginNames : List String)
    (filename? : Option String) (html : String) : String :=
  let isWidgetFile :=
    match filename? with
    | none => false
    | some fn => containsSub "chatgpt-widget-".data fn.data
  if !isWidgetFile then html
  else if command = "serve" then
    let hasViteReact := pluginNames.any fun n =>
      n == "vite:react-babel" || n == "vite:react-refresh"
    let hasReactRouter := pluginNames.any fun n =>
      n == "react-router" || containsSub "react-router".data n.data
    if hasReactRouter then
      String.mk (replaceFirst "<head>".data routerShim.data html.data)
    else if hasViteReact then
      String.mk (replaceFirst "<head>".data reactShim.data html.data)
    else html
  else html

def virtualEntryPat : List Char := "src=\"virtual:chatgpt-widget-entrypoint-".data

def virtualEntryRep : List Char := "src=\"/@id/virtual:chatgpt-widget-entrypoint-".data

/-- Modelled from the spec: the host dev server\x27s `transformIndexHtml`
pipeline (missing from `src/`, it belongs to Vite).  Per the spec it runs the
registered plugins\x27 HTML transforms on the raw document addressed by the
virtual id; in this model the only registered transform is the plugin\x27s own
post hook. -/
def devTransformIndexHtml (pluginNames : List String) (url html : String) : String :=
  transformIndexHtmlHandler "serve" pluginNames (some url) html

/-- The dev-server branch of `getWidgetHTML` (error texts abbreviated to their
identifying prefix). -/
def getWidgetHTMLDev (pluginNames : List String) (pluginBaseUrl : Option String)
    (viteBase : String) (widgetName : String) : Except String (String × WidgetSource) :=
  let virtualModuleId := virtualHtmlId widgetName
  match resolveIdHook virtualModuleId with
  | none => .error ("Failed to resolve virtual module: " ++ virtualModuleId)
  | some resolved =>
    match loadHtmlHook resolved with
    | none => .error ("Vite returned no content for widget \x27" ++ widgetName ++ "\x27")
    | some rawHtml =>
      if rawHtml = "" then
        .error ("Vite returned no content for widget \x27" ++ widgetName ++ "\x27")
      else
        let transformedHtml := devTransformIndexHtml pluginNames virtualModuleId rawHtml
        let html0 := String.mk (replaceAllLit virtualEntryPat virtualEntryRep
          transformedHtml.data)
        let explicitBaseUrl := pluginBaseUrl.getD ""
        if explicitBaseUrl ≠ "" then
          if !isAbsoluteUrl explicitBaseUrl then
            .error ("The passed chatGPTWidgetPlugin base URL \x22" ++ explicitBaseUrl ++
              "\x22 is not an absolute URL")
          else
            .ok (transformHtmlWithAbsoluteUrls html0 explicitBaseUrl, .devServer)
        else if viteBase ≠ "" then
          if !isAbsoluteUrl viteBase then
            .error ("The Vite base URL \x22" ++ viteBase ++ "\x22 is not an absolute URL")
          else
            .ok (transformHtmlWithAbsoluteUrls html0 viteBase, .devServer)
        else
          .error "Widget HTML requires an absolute base URL for sandboxed iframes"

/-- Modelled from the spec: the production build artifact for a widget.  The
bundler writes the synthesized HTML document with the virtual script entry
resolved to a content-hashed asset URL that is already absolutized under the
same base-URL configuration (spec section 4.6(f) and the generated-HTML
contract of section 6). -/
def prodBuiltWidgetHTML (widgetName base hash : String) : String :=
  let nb := String.mk (normalizedBaseChars base)
  "<!DOCTYPE html>\n<html lang=\"en\">\n  <head>\n    <meta charset=\"UTF-8\" />\n    <meta name=\"viewport\" content=\"width=device-width, initial-scale=1.0\" />\n    <title>" ++
    widgetName ++
    " Widget</title>\n  </head>\n  <body>\n    <div id=\"root\"></div>\n    <script type=\"module\" src=\"" ++
    nb ++ "assets/chatgpt-widget-" ++ widgetName ++ "-" ++ hash ++
    ".js\"></script>\n  </body>\n</html>"


/-! ## Helper lemmas for the claims about `getWidgets` -/

instance exceptDecEq {ε α : Type} [DecidableEq ε] [DecidableEq α] :
    DecidableEq (Except ε α) := fun x y =>
  match x, y with
  | .ok a, .ok b =>
    if h : a = b then isTrue (by rw [h]) else isFalse (fun hc => h (by cases hc; rfl))
  | .error a, .error b =>
    if h : a = b then isTrue (by rw [h]) else isFalse (fun hc => h (by cases hc; rfl))
  | .ok _, .error _ => isFalse (fun hc => Except.noConfusion hc)
  | .error _, .ok _ => isFalse (fun hc => Except.noConfusion hc)

def isOkE {α : Type} : Except String α → Bool
  | .ok _ => true
  | .error _ => false

theorem getWidgetsGo_ok_names {d : String}
    {g : String → Except String (String × WidgetSource)}
    {ps : List (String × String)} {l : List WidgetInfo}
    (h : getWidgetsGo d g ps = .ok l) : l.map WidgetInfo.name = ps.map Prod.snd := by
  induction ps generalizing l with
  | nil =>
    simp only [getWidgetsGo] at h
    cases h
    rfl
  | cons pr rest ih =>
    rcases pr with ⟨p, name⟩
    simp only [getWidgetsGo] at h
    rcases hg : g name with e | ⟨content, source⟩ <;> rw [hg] at h
    · exact absurd h (by simp)
    · rcases hgo : getWidgetsGo d g rest with e | ws <;> rw [hgo] at h
      · exact absurd h (by simp)
      · cases h
        simpa using ih hgo

theorem getWidgetsGo_error_of_fail {d : String}
    {g : String → Except String (String × WidgetSource)}
    {ps : List (String × String)}
    (h : ∃ pr ∈ ps, isOkE (g pr.2) = false) :
    ∃ e, getWidgetsGo d g ps = .error e ∧ ∃ pr ∈ ps, g pr.2 = .error e := by
  induction ps with
  | nil => simp at h
  | cons pr0 rest ih =>
    rcases pr0 with ⟨p, name⟩
    rcases hg : g name with e | ⟨content, source⟩
    · exact ⟨e, by simp [getWidgetsGo, hg], ⟨(p, name), by simp, by simpa using hg⟩⟩
    · have hrest : ∃ pr ∈ rest, isOkE (g pr.2) = false := by
        rcases h with ⟨pr, hmem, hfail⟩
        rcases List.mem_cons.mp hmem with rfl | hmem
        · have hx : isOkE (g name) = false := hfail
          rw [hg] at hx
          simp [isOkE] at hx
        · exact ⟨pr, hmem, hfail⟩
      rcases ih hrest with ⟨e, hgo, pr, hmem, herr⟩
      refine ⟨e, ?_, pr, List.mem_cons_of_mem _ hmem, herr⟩
      simp [getWidgetsGo, hg, hgo]

theorem getWidgetsGo_ok_of_all {d : String}
    {g : String → Except String (String × WidgetSource)}
    {ps : List (String × String)}
    (h : ∀ pr ∈ ps, isOkE (g pr.2) = true) :
    ∃ l, getWidgetsGo d g ps = .ok l := by
  induction ps with
  | nil => exact ⟨[], rfl⟩
  | cons pr0 rest ih =>
    rcases pr0 with ⟨p, name⟩
    rcases hg : g name with e | ⟨content, source⟩
    · have hx : isOkE (g name) = true := h (p, name) (by simp)
      rw [hg] at hx
      simp [isOkE] at hx
    · rcases ih (fun pr hpr => h pr (List.mem_cons_of_mem _ hpr)) with ⟨l, hgo⟩
      exact ⟨⟨name, pathJoin d p, content, source⟩ :: l,
        by simp [getWidgetsGo, hg, hgo]⟩

/-! ## The claims -/

/-- Claim C4: the `configResolved` hook fails exactly when neither the
plugin\x27s `baseUrl` option nor the host\x27s resolved base satisfies the URL
validator (`isAbsoluteUrl`); when at least one of the two is absolute, config
resolution succeeds. -/
theorem c4_configResolved_error_iff (options : ChatGPTWidgetPluginOptions)
    (viteBase : String) :
    configResolvedThrows options viteBase = true ↔
      ((match options.baseUrl with
        | some s => isAbsoluteUrl s
        | none => false) = false ∧ isAbsoluteUrl viteBase = false) := by
  unfold configResolvedThrows hasAbsolutePluginBaseUrl hasAbsoluteViteBase
  rcases options.baseUrl with _ | s
  · by_cases hv : viteBase = "" <;>
      simp [hv, show isAbsoluteUrl "" = false from by decide]
  · by_cases hs : s = ""
    · subst hs
      by_cases hv : viteBase = "" <;>
        simp [hv, show isAbsoluteUrl "" = false from by decide]
    · by_cases hv : viteBase = "" <;>
        simp [hs, hv, show isAbsoluteUrl "" = false from by decide, and_comm]

/-- Claim C5: the code\x27s default widgets directory.  Constructing the plugin
without a `widgetsDir` option yields `web/chatgpt`, not the
`web/chatgpt-widgets` documented in the README and the shipped type
declarations — the failing input for the claim. -/
theorem c5_default_widgetsDir :
    pluginWidgetsDir ⟨none, none⟩ = "web/chatgpt" ∧
      pluginWidgetsDir ⟨none, none⟩ ≠ "web/chatgpt-widgets" := by
  exact ⟨rfl, by decide⟩

/-- Claim C6 counterexample: a directory in which `Foo.ts` and `Foo.tsx` share
the stem `Foo` yields two `(path, name)` pairs for that stem, refuting the
claim that discovery yields at most one pair per stem chosen by extension
priority. -/
theorem c6_counterexample :
    ((listWidgetFiles "/p" "web/w" ["Foo.ts", "Foo.tsx"]).map Prod.snd).count "Foo" = 2 ∧
      listWidgetFiles "/p" "web/w" ["Foo.ts", "Foo.tsx"] =
        [("/p/web/w/Foo.ts", "Foo"), ("/p/web/w/Foo.tsx", "Foo")] := by
  decide

/-- Claim C6 (amended): widget discovery yields one `(path, name)` pair for
every non-`root` file with a supported extension, in listing order and
without any deduplication of stems; the fixed extension priority
`.tsx`, `.ts`, `.jsx`, `.js` instead governs which on-disk file the plugin
load hook resolves for a widget name. -/
theorem c6_discovery_and_priority (cwd dir root wd name : String)
    (files : List String) (fsEx : String → Bool) :
    (listWidgetFiles cwd dir files =
      (files.filter fun f =>
        decide (extname f ∈ supportedExts) &&
          !(lowerChars (basenameExt f (extname f)).data = ROOT_WIDGET_NAME.data)).map
        fun f => (pathJoin (pathResolve cwd dir) f, basenameExt f (extname f))) ∧
    (fsEx (pathJoin (pathResolve root wd) (name ++ ".tsx")) = true →
      findWidgetFile fsEx root wd name = some ("/" ++ wd ++ "/" ++ name ++ ".tsx")) ∧
    (fsEx (pathJoin (pathResolve root wd) (name ++ ".tsx")) = false →
      fsEx (pathJoin (pathResolve root wd) (name ++ ".ts")) = true →
      findWidgetFile fsEx root wd name = some ("/" ++ wd ++ "/" ++ name ++ ".ts")) ∧
    (fsEx (pathJoin (pathResolve root wd) (name ++ ".tsx")) = false →
      fsEx (pathJoin (pathResolve root wd) (name ++ ".ts")) = false →
      fsEx (pathJoin (pathResolve root wd) (name ++ ".jsx")) = true →
      findWidgetFile fsEx root wd name = some ("/" ++ wd ++ "/" ++ name ++ ".jsx")) ∧
    (fsEx (pathJoin (pathResolve root wd) (name ++ ".tsx")) = false →
      fsEx (pathJoin (pathResolve root wd) (name ++ ".ts")) = false →
      fsEx (pathJoin (pathResolve root wd) (name ++ ".jsx")) = false →
      fsEx (pathJoin (pathResolve root wd) (name ++ ".js")) = true →
      findWidgetFile fsEx root wd name = some ("/" ++ wd ++ "/" ++ name ++ ".js")) := by
  refine ⟨?_, ?_, ?_, ?_, ?_⟩
  · unfold listWidgetFiles
    induction files with
    | nil => rfl
    | cons f fs ih =>
      simp only [List.filterMap_cons, List.filter_cons, List.map_cons]
      by_cases h1 : extname f ∈ supportedExts
      · by_cases h2 : lowerChars (basenameExt f (extname f)).data = ROOT_WIDGET_NAME.data
        · simp [h1, h2, ih]
        · simp [h1, h2, ih]
      · simp [h1, ih]
  · intro h1
    simp [findWidgetFile, possibleExtensions, List.find?, h1]
  · intro h1 h2
    simp [findWidgetFile, possibleExtensions, List.find?, h1, h2]
  · intro h1 h2 h3
    simp [findWidgetFile, possibleExtensions, List.find?, h1, h2, h3]
  · intro h1 h2 h3 h4
    simp [findWidgetFile, possibleExtensions, List.find?, h1, h2, h3, h4]

/-- Witness for the amended claim C6 at concrete inputs: both `Foo.ts` and
`Foo.tsx` are discovered, and the load hook prefers `.tsx` when both exist. -/
theorem c6_discovery_and_priority_witness :
    listWidgetFiles "/p" "web/w" ["Foo.ts", "Foo.tsx"] =
      [("/p/web/w/Foo.ts", "Foo"), ("/p/web/w/Foo.tsx", "Foo")] ∧
    findWidgetFile (fun p => p = "/r/web/w/Foo.tsx" || p = "/r/web/w/Foo.ts")
        "/r" "web/w" "Foo" = some ("/web/w/Foo.tsx") := by
  have h := c6_discovery_and_priority "/p" "web/w" "/r" "web/w" "Foo"
    ["Foo.ts", "Foo.tsx"] (fun p => p = "/r/web/w/Foo.tsx" || p = "/r/web/w/Foo.ts")
  refine ⟨?_, ?_⟩
  · rw [h.1]; decide
  · have := h.2.1 (by decide)
    simpa using this

/-- Claim C7: `getWidgets` returns one entry per discovered widget in
discovery order, and never a partial list — if `getWidgetHTML` fails for any
discovered widget, the whole call fails with an error produced by a failing
widget\x27s `getWidgetHTML`. -/
theorem c7_getWidgets_all_or_nothing (cwd widgetsDir : String) (files : List String)
    (getHTML : String → Except String (String × WidgetSource)) :
    (∀ l, getWidgets cwd widgetsDir (some files) getHTML = .ok l →
      l.map WidgetInfo.name =
        (listWidgetFiles cwd (pathResolve cwd widgetsDir) files).map Prod.snd) ∧
    ((∀ pr ∈ listWidgetFiles cwd (pathResolve cwd widgetsDir) files,
        isOkE (getHTML pr.2) = true) →
      ∃ l, getWidgets cwd widgetsDir (some files) getHTML = .ok l) ∧
    ((∃ pr ∈ listWidgetFiles cwd (pathResolve cwd widgetsDir) files,
        isOkE (getHTML pr.2) = false) →
      ∃ e, getWidgets cwd widgetsDir (some files) getHTML = .error e ∧
        ∃ pr ∈ listWidgetFiles cwd (pathResolve cwd widgetsDir) files,
          getHTML pr.2 = .error e) := by
  refine ⟨?_, ?_, ?_⟩
  · intro l h
    exact getWidgetsGo_ok_names h
  · intro h
    exact getWidgetsGo_ok_of_all h
  · intro h
    exact getWidgetsGo_error_of_fail h

/-- Witness for claim C7 at concrete inputs: with two widgets where the second
resolution fails, the whole call fails with that widget\x27s error. -/
theorem c7_getWidgets_all_or_nothing_witness :
    (∃ e, getWidgets "/a" "w" (some ["A.tsx", "B.tsx"])
        (fun n => if n = "B" then .error "boom" else .ok ("h", .devServer)) = .error e ∧
      ∃ pr ∈ listWidgetFiles "/a" (pathResolve "/a" "w") ["A.tsx", "B.tsx"],
        (if pr.2 = "B" then (.error "boom" : Except String (String × WidgetSource))
          else .ok ("h", .devServer)) = .error e) := by
  have h := (c7_getWidgets_all_or_nothing "/a" "w" ["A.tsx", "B.tsx"]
    (fun n => if n = "B" then .error "boom" else .ok ("h", .devServer))).2.2
  exact h (by decide)

/-- Claim C9: the failing input.  `listWidgetFiles` already joins the resolved
directory onto each filename, and `getWidgets` joins the resolved directory a
second time, so the returned `filePath` duplicates the directory instead of
being the source file\x27s on-disk path. -/
theorem c9_filePath_double_join :
    getWidgets "/app" "web/chatgpt" (some ["Foo.tsx"])
        (fun _ => .ok ("<html>", .devServer)) =
      .ok [⟨"Foo", "/app/web/chatgpt/app/web/chatgpt/Foo.tsx", "<html>", .devServer⟩] ∧
    pathJoin (pathResolve "/app" "web/chatgpt") "Foo.tsx" = "/app/web/chatgpt/Foo.tsx" ∧
    ("/app/web/chatgpt/app/web/chatgpt/Foo.tsx" : String) ≠ "/app/web/chatgpt/Foo.tsx" := by
  decide

/-- Claim C10: with the handle\x27s `manifestPath` field undefined, the
production branch does not fail on the missing field — it behaves exactly as
with the default `dist/.vite/manifest.json`, resolved against the process
working directory, and only then applies the manifest-absent check. -/
theorem c10_manifestPath_default (fs : ProdFS) (cwd name : String)
    (h : fs.fsExists (pathResolve cwd "dist/.vite/manifest.json") = false) :
    getWidgetHTMLProd fs cwd name none =
      getWidgetHTMLProd fs cwd name (some "dist/.vite/manifest.json") ∧
    getWidgetHTMLProd fs cwd name none =
      .error ("Vite manifest not found at " ++ pathResolve cwd "dist/.vite/manifest.json") := by
  refine ⟨rfl, ?_⟩
  unfold getWidgetHTMLProd
  simp [Option.getD, h]

/-- Witness for claim C10 at concrete inputs. -/
theorem c10_manifestPath_default_witness :
    getWidgetHTMLProd ⟨fun _ => false, fun _ => "", fun _ _ => false⟩ "/app" "W" none =
        getWidgetHTMLProd ⟨fun _ => false, fun _ => "", fun _ _ => false⟩ "/app" "W"
          (some "dist/.vite/manifest.json") ∧
      getWidgetHTMLProd ⟨fun _ => false, fun _ => "", fun _ _ => false⟩ "/app" "W" none =
        .error ("Vite manifest not found at " ++
          pathResolve "/app" "dist/.vite/manifest.json") :=
  c10_manifestPath_default ⟨fun _ => false, fun _ => "", fun _ _ => false⟩ "/app" "W" rfl

/-- The criterion in the words of the spec for claim C3: the string parses
successfully as a URL having both a scheme and a host. -/
def specSchemeAndHost (url : String) : Bool :=
  match parseURL url with
  | some r => r.host.isSome
  | none => false

/-- Claim C3 counterexample: `mailto:user@example.com` parses successfully as
a URL (so `isAbsoluteUrl` returns `true`) but has a scheme and no host,
refuting `true exactly when the URL has a scheme and host`. -/
theorem c3_counterexample :
    isAbsoluteUrl "mailto:user@example.com" = true ∧
      specSchemeAndHost "mailto:user@example.com" = false := by
  decide

/-- Claim C3 (amended): `isAbsoluteUrl url` is `true` exactly when `url`
parses successfully as a WHATWG URL — a scheme is required but a host is not
(scheme-only URLs such as `mailto:` are accepted); strings with no scheme such
as `/path`, `path` and `example.com/path` are rejected, and a parse failure
yields `false` rather than an exception. -/
theorem c3_isAbsoluteUrl_amended :
    (∀ url : String, isAbsoluteUrl url = true ↔ (parseURL url).isSome = true) ∧
    isAbsoluteUrl "https://example.com/" = true ∧
    isAbsoluteUrl "mailto:user@example.com" = true ∧
    isAbsoluteUrl "/path" = false ∧
    isAbsoluteUrl "path" = false ∧
    isAbsoluteUrl "example.com/path" = false :=
  ⟨fun _ => Iff.rfl, by decide, by decide, by decide, by decide, by decide⟩

/-! ## Claim C8: at most one dev-mode shim -/

def routerMarker : List Char := "__reactRouterDataRouter".data

def reactMarker : List Char := "__vite_plugin_react_preamble_installed__".data

/-- The handler injected a fragment containing `marker` that the input did not
already contain. -/
def injectsShim (marker : List Char) (input output : String) : Prop :=
  containsSub marker output.data = true ∧ containsSub marker input.data ≠ true

theorem contains_replaceFirst_imp {pat rep marker s : List Char}
    (hpne : pat ≠ []) (hrne : rep ≠ [])
    (hrep : containsSub marker rep ≠ true)
    (hhead : ∀ ch, rep.head? = some ch → ch ∉ marker)
    (hlast : ∀ ch, rep.getLast? = some ch → ch ∉ marker)
    (h : containsSub marker (replaceFirst pat rep s) = true) :
    containsSub marker s = true := by
  by_cases hocc : containsSub pat s = true
  · rcases replaceFirst_occurrence rep hpne hocc with ⟨u, v, hs, hout⟩
    rw [hout] at h
    by_contra hns
    have hnu : containsSub marker u ≠ true := fun hc =>
      hns (by rw [hs, List.append_assoc]; exact containsSub_of_left _ hc)
    have hnv : containsSub marker v ≠ true := fun hc =>
      hns (by rw [hs]; exact containsSub_of_right _ hc)
    have hrv : containsSub marker (rep ++ v) ≠ true :=
      not_containsSub_append_last hrep hnv hlast
    have hfull : containsSub marker (u ++ (rep ++ v)) ≠ true := by
      refine not_containsSub_append_head hnu hrv ?_
      intro ch hch
      cases hr : rep with
      | nil => exact absurd hr hrne
      | cons x xs =>
        rw [hr] at hch
        simp only [List.cons_append, List.head?_cons] at hch
        have hx : x = ch := by simpa using hch
        subst hx
        exact hhead x (by simp [hr])
    rw [← List.append_assoc] at hfull
    exact hfull h
  · rw [replaceFirst_no_occurrence rep hocc] at h
    exact h

/-- The handler either returns the input or injects exactly one of the two
shims. -/
theorem transformIndexHtmlHandler_cases (command : String) (pluginNames : List String)
    (filename? : Option String) (html : String) :
    transformIndexHtmlHandler command pluginNames filename? html = html ∨
      transformIndexHtmlHandler command pluginNames filename? html =
        String.mk (replaceFirst "<head>".data routerShim.data html.data) ∨
      transformIndexHtmlHandler command pluginNames filename? html =
        String.mk (replaceFirst "<head>".data reactShim.data html.data) := by
  unfold transformIndexHtmlHandler
  rcases filename? with _ | fn
  · exact Or.inl rfl
  by_cases h1 : containsSub "chatgpt-widget-".data fn.data = true
  case neg => simp [h1]
  by_cases h2 : command = "serve"
  case neg => simp [h1, h2]
  by_cases h3 : (pluginNames.any fun n =>
      n == "react-router" || containsSub "react-router".data n.data) = true
  · simp [h1, h2, h3]
  · by_cases h4 : (pluginNames.any fun n =>
        n == "vite:react-babel" || n == "vite:react-refresh") = true <;>
      simp [h1, h2, h3, h4]

/-- Claim C8: for every input document and configuration, the post-order
`transformIndexHtml` handler injects at most one of the two inline dev-mode
shims — the client-side-routing globals polyfill or the React-refresh
preamble — never both. -/
theorem c8_at_most_one_shim (command : String) (pluginNames : List String)
    (filename? : Option String) (html : String) :
    ¬ (injectsShim routerMarker html
        (transformIndexHtmlHandler command pluginNames filename? html) ∧
      injectsShim reactMarker html
        (transformIndexHtmlHandler command pluginNames filename? html)) := by
  rintro ⟨⟨hro, hri⟩, ⟨heo, hei⟩⟩
  rcases transformIndexHtmlHandler_cases command pluginNames filename? html with
    hc | hc | hc
  · rw [hc] at hro
    exact hri hro
  · rw [hc] at heo
    refine hei (contains_replaceFirst_imp (by decide) (by decide) (by decide)
      ?_ ?_ heo)
    · intro ch hch
      have hc2 : ch = '<' := by
        have hh : routerShim.data.head? = some '<' := by decide
        rw [hh] at hch
        simpa using hch.symm
      subst hc2
      decide
    · intro ch hch
      have hc2 : ch = '>' := by
        have hh : routerShim.data.getLast? = some '>' := by decide
        rw [hh] at hch
        simpa using hch.symm
      subst hc2
      decide
  · rw [hc] at hro
    refine hri (contains_replaceFirst_imp (by decide) (by decide) (by decide)
      ?_ ?_ hro)
    · intro ch hch
      have hc2 : ch = '<' := by
        have hh : reactShim.data.head? = some '<' := by decide
        rw [hh] at hch
        simpa using hch.symm
      subst hc2
      decide
    · intro ch hch
      have hc2 : ch = '>' := by
        have hh : reactShim.data.getLast? = some '>' := by decide
        rw [hh] at hch
        simpa using hch.symm
      subst hc2
      decide

/-! ## Claim C2: the absolutizer

The claim is refuted by an explicit counterexample (greedy backtracking of
`[^>]+` rewrites only the last `src="/…"` candidate inside a tag, and a
relative base double-prefixes).  The amended claim is proved over documents
made of `<`-free text interleaved with well-formed single-`src`/`href` tags —
the shape this system\x27s own synthesizer produces. -/

/-- Claim C2 counterexample: the equation
`absolutize(absolutize(html, base), base) = absolutize(html, base)` fails at
explicit inputs: with the absolute base `https://e.com/`, a script tag with
two `src` attributes has only its last candidate rewritten per pass, so the
second pass rewrites more; and with the base `/foo`, a second pass
double-prefixes. -/
theorem c2_counterexample :
    (transformHtmlWithAbsoluteUrls "<script a src=\"/x\" b src=\"/y\">" "https://e.com/" =
      "<script a src=\"/x\" b src=\"https://e.com/y\">" ∧
    transformHtmlWithAbsoluteUrls
        (transformHtmlWithAbsoluteUrls "<script a src=\"/x\" b src=\"/y\">" "https://e.com/")
        "https://e.com/" =
      "<script a src=\"https://e.com/x\" b src=\"https://e.com/y\">" ∧
    transformHtmlWithAbsoluteUrls
        (transformHtmlWithAbsoluteUrls "<script a src=\"/x\" b src=\"/y\">" "https://e.com/")
        "https://e.com/" ≠
      transformHtmlWithAbsoluteUrls "<script a src=\"/x\" b src=\"/y\">" "https://e.com/") ∧
    transformHtmlWithAbsoluteUrls
        (transformHtmlWithAbsoluteUrls "<script src=\"/x\">" "/foo") "/foo" =
      "<script src=\"/foo/foo/x\">" := by
  decide

theorem containsSub_infix_iff (pat s : List Char) :
    containsSub pat s = true ↔ pat <:+: s := by
  rw [containsSub_iff]
  constructor
  · rintro ⟨u, v, h⟩
    exact ⟨u, v, h.symm⟩
  · rintro ⟨u, v, h⟩
    exact ⟨u, v, h.symm⟩

/-- Characters allowed inside tag attribute text, URLs and trailing text. -/
def tagCharOK (c : Char) : Bool := !(c == '<') && !(c == '>') && !isQuote c

/-- A document piece: `<`-free text, or a well-formed script (`isScript =
true`) or link (`isScript = false`) tag with a single quoted `src`/`href`
attribute. -/
inductive HtmlPiece where
  | text (t : List Char)
  | tag (isScript : Bool) (a : List Char) (q : Char) (url : List Char) (post : List Char)

def pieceTag (b : Bool) : List Char := if b then scriptTag else linkTag

def pieceLit (b : Bool) : List Char := if b then srcLit else hrefLit

def renderPiece : HtmlPiece → List Char
  | .text t => t
  | .tag b a q url post => pieceTag b ++ a ++ pieceLit b ++ q :: url ++ q :: post ++ ['>']

def renderHtml : List HtmlPiece → List Char
  | [] => []
  | p :: ps => renderPiece p ++ renderHtml ps

def pieceWF : HtmlPiece → Prop
  | .text t => ∀ c ∈ t, c ≠ '<'
  | .tag b a q url post =>
    a ≠ [] ∧ (∀ c ∈ a, tagCharOK c = true) ∧ isQuote q = true ∧
      url ≠ [] ∧ url ≠ ['/'] ∧ (∀ c ∈ url, tagCharOK c = true) ∧
      (∀ c ∈ post, tagCharOK c = true) ∧ containsSub (pieceLit b) url ≠ true

/-- Conditions on the normalized base under which the passes behave. -/
def nbOK (nb : List Char) : Prop :=
  nb ≠ [] ∧ (∀ ch, nb[0]? = some ch → ch ≠ '/') ∧ nb.getLast? = some '/' ∧
    (∀ c ∈ nb, tagCharOK c = true) ∧ containsSub srcLit nb ≠ true ∧
    containsSub hrefLit nb ≠ true

/-- The rewrite a pass performs on a piece of its own kind: a URL of the form
`/u` with `u` nonempty becomes `nb ++ u`. -/
def rewriteTag (b : Bool) (nb : List Char) : HtmlPiece → HtmlPiece
  | .tag b' a q url post =>
    if b' = b then
      match url with
      | c :: u' => if c = '/' ∧ u' ≠ [] then .tag b' a q (nb ++ u') post
                   else .tag b' a q (c :: u') post
      | [] => .tag b' a q [] post
    else .tag b' a q url post
  | p => p

instance instDecPieceWF : (p : HtmlPiece) → Decidable (pieceWF p)
  | .text t => inferInstanceAs (Decidable (∀ c ∈ t, c ≠ '<'))
  | .tag b a q url post =>
    inferInstanceAs (Decidable (a ≠ [] ∧ (∀ c ∈ a, tagCharOK c = true) ∧ isQuote q = true ∧
      url ≠ [] ∧ url ≠ ['/'] ∧ (∀ c ∈ url, tagCharOK c = true) ∧
      (∀ c ∈ post, tagCharOK c = true) ∧ containsSub (pieceLit b) url ≠ true))

instance instDecNbOK (nb : List Char) : Decidable (nbOK nb) :=
  inferInstanceAs (Decidable (nb ≠ [] ∧ (∀ ch, nb[0]? = some ch → ch ≠ '/') ∧
    nb.getLast? = some '/' ∧ (∀ c ∈ nb, tagCharOK c = true) ∧
    containsSub srcLit nb ≠ true ∧ containsSub hrefLit nb ≠ true))

instance instDecLitOK (lit : List Char) : Decidable (litOK lit) :=
  inferInstanceAs (Decidable (lit ≠ [] ∧ (∀ c ∈ lit, isQuote c = false) ∧
    (∀ c ∈ lit, c ≠ '>') ∧ ∀ c ∈ lit, c ≠ '/'))

theorem tagCharOK_spec {c : Char} (h : tagCharOK c = true) :
    c ≠ '<' ∧ c ≠ '>' ∧ isQuote c = false := by
  simp only [tagCharOK, Bool.and_eq_true, Bool.not_eq_true', beq_eq_false_iff_ne, ne_eq] at h
  exact ⟨h.1.1, h.1.2, h.2⟩

theorem isQuote_ne {c : Char} (h : isQuote c = true) :
    c ≠ '<' ∧ c ≠ '>' ∧ c ≠ '/' := by
  simp only [isQuote, Bool.or_eq_true, beq_iff_eq] at h
  rcases h with rfl | rfl
  · exact ⟨by decide, by decide, by decide⟩
  · exact ⟨by decide, by decide, by decide⟩

def pieceTagTail (b : Bool) : List Char := if b then "script".data else "link".data

theorem pieceTag_eq (b : Bool) : pieceTag b = '<' :: pieceTagTail b := by
  cases b <;> rfl

theorem pieceLit_litOK (b : Bool) : litOK (pieceLit b) := by
  cases b <;> decide

theorem pieceTag_mism {b b' : Bool} (h : b ≠ b') :
    hasMismatch (pieceTag b) (pieceTag b') = true := by
  cases b <;> cases b'
  · exact absurd rfl h
  · decide
  · decide
  · exact absurd rfl h

theorem rewriteTag_text (b : Bool) (nb s : List Char) :
    rewriteTag b nb (.text s) = .text s := rfl

theorem rewriteTag_other {b b' : Bool} (nb : List Char) (a : List Char) (q : Char)
    (url post : List Char) (h : ¬ b' = b) :
    rewriteTag b nb (.tag b' a q url post) = .tag b' a q url post := by
  simp [rewriteTag, h]

theorem rewriteTag_nil (b : Bool) (nb a : List Char) (q : Char) (post : List Char) :
    rewriteTag b nb (.tag b a q [] post) = .tag b a q [] post := by
  simp [rewriteTag]

theorem rewriteTag_slash {u : List Char} (b : Bool) (nb a : List Char) (q : Char)
    (post : List Char) (hu : u ≠ []) :
    rewriteTag b nb (.tag b a q ('/' :: u) post) = .tag b a q (nb ++ u) post := by
  simp [rewriteTag, hu]

theorem rewriteTag_keep {c : Char} {u : List Char} (b : Bool) (nb a : List Char) (q : Char)
    (post : List Char) (h : ¬ (c = '/' ∧ u ≠ [])) :
    rewriteTag b nb (.tag b a q (c :: u) post) = .tag b a q (c :: u) post := by
  simp only [rewriteTag, if_pos rfl]
  rw [if_neg h]
  simp

theorem replacePass_match_ne {tag lit : List Char} (nb : List Char) {s g : List Char}
    {m : ContM} (hne : s ≠ []) (h : tagMatch tag lit s = some (g, m)) :
    replacePass tag lit nb s =
      tag ++ g ++ lit ++ m.q :: (nb ++ m.path ++ m.q2 :: replacePass tag lit nb m.rest) := by
  cases s with
  | nil => exact absurd rfl hne
  | cons c t => exact replacePass_match nb h

/-- A whole well-formed tag piece at which the tag match fails is copied
verbatim: the only `<` is its first character. -/
theorem pass_skip_tagpiece {b b' : Bool} {nb : List Char} {a url post t : List Char}
    {q : Char}
    (haOK : ∀ c ∈ a, tagCharOK c = true) (hq : isQuote q = true)
    (huOK : ∀ c ∈ url, tagCharOK c = true) (hpOK : ∀ c ∈ post, tagCharOK c = true)
    (hnone : tagMatch (pieceTag b) (pieceLit b)
      (renderPiece (.tag b' a q url post) ++ t) = none) :
    replacePass (pieceTag b) (pieceLit b) nb (renderPiece (.tag b' a q url post) ++ t) =
      renderPiece (.tag b' a q url post) ++ replacePass (pieceTag b) (pieceLit b) nb t := by
  have h0 : (pieceTag b)[0]? = some '<' := by cases b <;> rfl
  have hrp : renderPiece (HtmlPiece.tag b' a q url post) =
      '<' :: (pieceTagTail b' ++ a ++ pieceLit b' ++ q :: url ++ q :: post ++ ['>']) := by
    rw [renderPiece, pieceTag_eq]
    simp [List.cons_append]
  have hnotmem : '<' ∉ pieceTagTail b' ++ a ++ pieceLit b' ++ q :: url ++ q :: post ++ ['>'] := by
    intro hm
    simp only [List.mem_append, List.mem_cons, List.mem_singleton] at hm
    rcases hm with ((((hm | hm) | hm) | hm | hm) | hm | hm) | hm
    · revert hm; cases b' <;> decide
    · exact (tagCharOK_spec (haOK _ hm)).1 rfl
    · revert hm; cases b' <;> decide
    · exact (isQuote_ne hq).1 hm.symm
    · exact (tagCharOK_spec (huOK _ hm)).1 rfl
    · exact (isQuote_ne hq).1 hm.symm
    · exact (tagCharOK_spec (hpOK _ hm)).1 rfl
    · exact absurd hm (by decide)
  rw [hrp, List.cons_append] at hnone ⊢
  rw [replacePass_skip nb hnone, replacePass_skip_seg nb h0 hnotmem]
  rfl

/-- One pass of the global tag-rewrite regex on a rendered piece followed by
anything: the piece is rewritten in place and scanning resumes after it. -/
theorem pass_piece (b : Bool) (nb : List Char) (p : HtmlPiece) (hp : pieceWF p)
    (t : List Char) :
    replacePass (pieceTag b) (pieceLit b) nb (renderPiece p ++ t) =
      renderPiece (rewriteTag b nb p) ++ replacePass (pieceTag b) (pieceLit b) nb t := by
  have h0 : (pieceTag b)[0]? = some '<' := by cases b <;> rfl
  have hlit : litOK (pieceLit b) := pieceLit_litOK b
  cases p with
  | text s =>
    rw [rewriteTag_text]
    exact replacePass_skip_seg nb h0 (fun hmem => hp '<' hmem rfl)
  | tag b' a q url post =>
    obtain ⟨hane, haOK, hq, hune, hnsl, huOK, hpOK, hnc⟩ := hp
    have haq : noQuote a := fun c hc => (tagCharOK_spec (haOK c hc)).2.2
    have hag : noGt a := fun c hc => (tagCharOK_spec (haOK c hc)).2.1
    have huq : noQuote url := fun c hc => (tagCharOK_spec (huOK c hc)).2.2
    have hug : noGt url := fun c hc => (tagCharOK_spec (huOK c hc)).2.1
    have hpq : noQuote post := fun c hc => (tagCharOK_spec (hpOK c hc)).2.2
    have hpg : noGt post := fun c hc => (tagCharOK_spec (hpOK c hc)).2.1
    by_cases hbb : b' = b
    · subst hbb
      have hsuf : ¬ pieceLit b' <:+ url := fun hs =>
        hnc ((containsSub_infix_iff _ _).mpr hs.isInfix)
      rcases url with _ | ⟨c, u⟩
      · exact absurd rfl hune
      by_cases hc : c = '/'
      · subst hc
        have hu : u ≠ [] := fun h => hnsl (by rw [h])
        have husuf : ¬ pieceLit b' <:+ u := fun hs =>
          hsuf (hs.trans (List.suffix_cons '/' u))
        have huq' : noQuote u := fun d hd => huq d (by simp [hd])
        have hug' : noGt u := fun d hd => hug d (by simp [hd])
        have hshape : renderPiece (HtmlPiece.tag b' a q ('/' :: u) post) ++ t =
            pieceTag b' ++ (a ++ (pieceLit b' ++ q :: '/' :: (u ++ q ::
              (post ++ '>' :: t)))) := by
          simp [renderPiece, List.append_assoc, List.cons_append, List.singleton_append]
        have hmatch : tagMatch (pieceTag b') (pieceLit b')
            (pieceTag b' ++ (a ++ (pieceLit b' ++ q :: '/' :: (u ++ q ::
              (post ++ '>' :: t))))) = some (a, ⟨q, u, q, post ++ '>' :: t⟩) :=
          tagMatch_designate hlit hq hq hag hane hu huq' hug' husuf hpq hpg
            (kill_by_quote hlit.2.1 haq)
        rw [hshape, replacePass_match_ne nb (by cases b' <;> simp [pieceTag]) hmatch]
        have hnm : '<' ∉ post ++ ['>'] := by
          intro hm
          rcases List.mem_append.mp hm with hm | hm
          · exact (tagCharOK_spec (hpOK _ hm)).1 rfl
          · simp at hm
        have hrest : replacePass (pieceTag b') (pieceLit b') nb (post ++ '>' :: t) =
            post ++ '>' :: replacePass (pieceTag b') (pieceLit b') nb t := by
          rw [show post ++ '>' :: t = (post ++ ['>']) ++ t by simp,
            replacePass_skip_seg nb h0 hnm]
          simp
        rw [rewriteTag_slash b' nb a q post hu]
        dsimp only
        rw [hrest]
        simp [renderPiece, List.append_assoc, List.cons_append, List.singleton_append]
      · rw [rewriteTag_keep b' nb a q post (fun hx => hc hx.1)]
        have hu0 : ∀ ch, (c :: u)[0]? = some ch → ch ≠ '/' := by
          intro ch hch
          simp only [List.getElem?_cons_zero, Option.some.injEq] at hch
          subst hch
          exact hc
        have hshape : renderPiece (HtmlPiece.tag b' a q (c :: u) post) ++ t =
            pieceTag b' ++ (a ++ (pieceLit b' ++ q :: ((c :: u) ++ q ::
              (post ++ '>' :: t)))) := by
          simp [renderPiece, List.append_assoc, List.cons_append, List.singleton_append]
        refine pass_skip_tagpiece haOK hq huOK hpOK ?_
        rw [hshape]
        exact tagMatch_none_noslash hlit hq hq hag hu0 huq hug hsuf hpq hpg
          (kill_by_quote hlit.2.1 haq)
    · rw [rewriteTag_other nb a q url post hbb]
      have hshape : renderPiece (HtmlPiece.tag b' a q url post) ++ t =
          pieceTag b' ++ (a ++ (pieceLit b' ++ q :: (url ++ q ::
            (post ++ '>' :: t)))) := by
        simp [renderPiece, List.append_assoc, List.cons_append, List.singleton_append]
      refine pass_skip_tagpiece haOK hq huOK hpOK ?_
      refine tagMatch_none_of_no_tag ?_
      rw [hshape]
      exact hasMismatch_spec (pieceTag_mism (fun h => hbb h.symm)) _

theorem renderHtml_cons (p : HtmlPiece) (ps : List HtmlPiece) :
    renderHtml (p :: ps) = renderPiece p ++ renderHtml ps := rfl

/-- One full pass of the global regex over a rendered document rewrites each
piece independently. -/
theorem pass_render (b : Bool) (nb : List Char) (ps : List HtmlPiece)
    (hwf : ∀ p ∈ ps, pieceWF p) :
    replacePass (pieceTag b) (pieceLit b) nb (renderHtml ps) =
      renderHtml (List.map (rewriteTag b nb) ps) := by
  induction ps with
  | nil => rfl
  | cons p ps ih =>
    rw [renderHtml_cons, pass_piece b nb p (hwf p (by simp)) (renderHtml ps),
      ih (fun x hx => hwf x (by simp [hx])), List.map_cons, renderHtml_cons]

/-- The rewrite preserves piece well-formedness, given the base conditions:
the normalized base ends in `/`, which cannot complete an occurrence of
`src=` / `href=` across the splice boundary. -/
theorem rewriteTag_WF {nb : List Char} (hnb : nbOK nb) (b : Bool) (p : HtmlPiece)
    (hp : pieceWF p) : pieceWF (rewriteTag b nb p) := by
  obtain ⟨hnbne, hnb0, hnblast, hnbOK, hnbsrc, hnbhref⟩ := hnb
  cases p with
  | text s => exact hp
  | tag b' a q url post =>
    by_cases hbb : b' = b
    · subst hbb
      rcases url with _ | ⟨c, u⟩
      · rw [rewriteTag_nil]; exact hp
      by_cases hcu : c = '/' ∧ u ≠ []
      · obtain ⟨rfl, hu⟩ := hcu
        rw [rewriteTag_slash b' nb a q post hu]
        obtain ⟨hane, haOK, hq, _, _, huOK, hpOK, hnc⟩ := hp
        refine ⟨hane, haOK, hq, ?_, ?_, ?_, hpOK, ?_⟩
        · exact fun h => hnbne (List.append_eq_nil.mp h).1
        · intro h
          have hlen := congrArg List.length h
          have h1 : 0 < nb.length := List.length_pos.mpr hnbne
          have h2 : 0 < u.length := List.length_pos.mpr hu
          simp at hlen
          omega
        · intro ch hch
          rcases List.mem_append.mp hch with h | h
          · exact hnbOK ch h
          · exact huOK ch (by simp [h])
        · refine not_containsSub_append_last ?_ ?_ ?_
          · cases b' <;> assumption
          · intro h
            apply hnc
            rcases (containsSub_iff _ _).mp h with ⟨x, y, hxy⟩
            exact (containsSub_iff _ _).mpr ⟨'/' :: x, y, by simp [hxy]⟩
          · intro ch hch
            rw [hnblast] at hch
            have : ch = '/' := by simpa using hch.symm
            subst this
            cases b' <;> decide
      · rw [rewriteTag_keep b' nb a q post hcu]
        exact hp
    · rw [rewriteTag_other nb a q url post hbb]
      exact hp

/-- Rewritten pieces are fixed points of a further script-then-link rewrite
round: a rewritten URL starts with the base head, which is not `/`. -/
theorem rewrite_both_idem {nb : List Char} (hne : nb ≠ [])
    (h0 : ∀ ch, nb[0]? = some ch → ch ≠ '/') (p : HtmlPiece) :
    rewriteTag false nb (rewriteTag true nb (rewriteTag false nb (rewriteTag true nb p))) =
      rewriteTag false nb (rewriteTag true nb p) := by
  rcases hnb : nb with _ | ⟨d, nb'⟩
  · exact absurd hnb hne
  have hd : d ≠ '/' := h0 d (by rw [hnb]; simp)
  subst hnb
  cases p with
  | text s => rfl
  | tag b' a q url post =>
    cases b' with
    | true =>
      rcases url with _ | ⟨c, u⟩
      · rw [rewriteTag_nil, rewriteTag_other _ _ _ _ _ (by decide), rewriteTag_nil,
          rewriteTag_other _ _ _ _ _ (by decide)]
      by_cases hcu : c = '/' ∧ u ≠ []
      · obtain ⟨rfl, hu⟩ := hcu
        rw [rewriteTag_slash _ _ _ _ _ hu, List.cons_append,
          rewriteTag_other _ _ _ _ _ (by decide),
          rewriteTag_keep _ _ _ _ _ (fun hx => hd hx.1),
          rewriteTag_other _ _ _ _ _ (by decide)]
      · rw [rewriteTag_keep _ _ _ _ _ hcu, rewriteTag_other _ _ _ _ _ (by decide),
          rewriteTag_keep _ _ _ _ _ hcu, rewriteTag_other _ _ _ _ _ (by decide)]
    | false =>
      rw [rewriteTag_other _ _ _ _ _ (by decide)]
      rcases url with _ | ⟨c, u⟩
      · rw [rewriteTag_nil, rewriteTag_other _ _ _ _ _ (by decide), rewriteTag_nil]
      by_cases hcu : c = '/' ∧ u ≠ []
      · obtain ⟨rfl, hu⟩ := hcu
        rw [rewriteTag_slash _ _ _ _ _ hu, List.cons_append,
          rewriteTag_other _ _ _ _ _ (by decide),
          rewriteTag_keep _ _ _ _ _ (fun hx => hd hx.1)]
      · rw [rewriteTag_keep _ _ _ _ _ hcu, rewriteTag_other _ _ _ _ _ (by decide),
          rewriteTag_keep _ _ _ _ _ hcu]

/-- One run of `transformHtmlWithAbsoluteUrls` on a rendered document: the
script pass rewrites the script pieces, the link pass the link pieces. -/
theorem transform_render (base : String) (ps : List HtmlPiece)
    (hwf : ∀ p ∈ ps, pieceWF p) (hb : nbOK (normalizedBaseChars base)) :
    transformHtmlWithAbsoluteUrls (String.mk (renderHtml ps)) base =
      String.mk (renderHtml (List.map (rewriteTag false (normalizedBaseChars base))
        (List.map (rewriteTag true (normalizedBaseChars base)) ps))) := by
  have h1 := pass_render true (normalizedBaseChars base) ps hwf
  have h2 := pass_render false (normalizedBaseChars base)
    (List.map (rewriteTag true (normalizedBaseChars base)) ps)
    (fun p hp => by
      rcases List.mem_map.mp hp with ⟨x, hx, rfl⟩
      exact rewriteTag_WF hb true x (hwf x hx))
  simp only [pieceTag, pieceLit, if_true, if_false, Bool.false_eq_true, ite_true,
    ite_false] at h1 h2
  show String.mk (replacePass linkTag hrefLit (normalizedBaseChars base)
    (replacePass scriptTag srcLit (normalizedBaseChars base) (renderHtml ps))) = _
  rw [h1, h2]

/-- Claim C2 (amended): `absolutize(absolutize(html, base), base) =
absolutize(html, base)` holds for every base whose normalized form is
nonempty, does not begin with `/`, contains no quote, `<` or `>` and no
`src=` / `href=` occurrence, and for every HTML document consisting of
`<`-free text interleaved with well-formed script and link tags — a nonempty
quote-, `<`- and `>`-free attribute region, one quoted `src` / `href`
attribute whose value is nonempty, not exactly `/`, quote-, `<`- and
`>`-free and free of the `src=` / `href=` literal, then quote-, `<`- and
`>`-free trailing text.  On arbitrary strings the equation is refuted by the
separate counterexample. -/
theorem c2_absolutize_idempotent (base : String) (ps : List HtmlPiece)
    (hb : nbOK (normalizedBaseChars base)) (hwf : ∀ p ∈ ps, pieceWF p) :
    transformHtmlWithAbsoluteUrls
        (transformHtmlWithAbsoluteUrls (String.mk (renderHtml ps)) base) base =
      transformHtmlWithAbsoluteUrls (String.mk (renderHtml ps)) base := by
  have h1 := transform_render base ps hwf hb
  have hwf1 : ∀ p ∈ List.map (rewriteTag false (normalizedBaseChars base))
      (List.map (rewriteTag true (normalizedBaseChars base)) ps), pieceWF p := by
    intro p hp
    rcases List.mem_map.mp hp with ⟨x, hx, rfl⟩
    rcases List.mem_map.mp hx with ⟨y, hy, rfl⟩
    exact rewriteTag_WF hb false _ (rewriteTag_WF hb true y (hwf y hy))
  have h2 := transform_render base _ hwf1 hb
  rw [h1, h2]
  refine congrArg (fun l => String.mk (renderHtml l)) ?_
  simp only [List.map_map, Function.comp]
  exact List.map_congr_left fun x hx => rewrite_both_idem hb.1 hb.2.1 x

theorem c2_absolutize_idempotent_witness :
    nbOK (normalizedBaseChars "https://e.com") ∧
    (∀ p ∈ [HtmlPiece.text "x ".data,
        HtmlPiece.tag true " ".data '"' "/w.js".data "".data,
        HtmlPiece.text " mid ".data,
        HtmlPiece.tag false " rel=stylesheet ".data '\'' "/s.css".data "".data],
      pieceWF p) ∧
    transformHtmlWithAbsoluteUrls
        (transformHtmlWithAbsoluteUrls
          (String.mk (renderHtml [HtmlPiece.text "x ".data,
            HtmlPiece.tag true " ".data '"' "/w.js".data "".data,
            HtmlPiece.text " mid ".data,
            HtmlPiece.tag false " rel=stylesheet ".data '\'' "/s.css".data "".data]))
          "https://e.com") "https://e.com" =
      transformHtmlWithAbsoluteUrls
        (String.mk (renderHtml [HtmlPiece.text "x ".data,
          HtmlPiece.tag true " ".data '"' "/w.js".data "".data,
          HtmlPiece.text " mid ".data,
          HtmlPiece.tag false " rel=stylesheet ".data '\'' "/s.css".data "".data]))
        "https://e.com" :=
  ⟨by decide, by decide,
    c2_absolutize_idempotent "https://e.com"
      [HtmlPiece.text "x ".data,
        HtmlPiece.tag true " ".data '"' "/w.js".data "".data,
        HtmlPiece.text " mid ".data,
        HtmlPiece.tag false " rel=stylesheet ".data '\'' "/s.css".data "".data]
      (by decide) (by decide)⟩

/-! ## Claim C1: structural equivalence of dev and prod widget HTML

Character classes for the abstract parts (host, widget name, content hash)
of the URLs and documents involved; each is a conservative class that the
real values (DNS host labels, widget file stems, Vite content hashes)
satisfy. -/

def hostCharOK (c : Char) : Bool :=
  (65 ≤ c.toNat && c.toNat ≤ 90) || (97 ≤ c.toNat && c.toNat ≤ 122) ||
    (48 ≤ c.toNat && c.toNat ≤ 57) || c == '.' || c == '-'

def nameCharOK (c : Char) : Bool :=
  (65 ≤ c.toNat && c.toNat ≤ 90) || (97 ≤ c.toNat && c.toNat ≤ 122) ||
    (48 ≤ c.toNat && c.toNat ≤ 57) || c == '-' || c == '_'

theorem charOK_ne {c x : Char} {f : Char → Bool} (h : f c = true) (hx : f x = false) :
    c ≠ x := fun heq => by rw [heq, hx] at h; exact Bool.false_ne_true h

theorem hostCharOK_spec {c : Char} (h : hostCharOK c = true) :
    isForbiddenHostChar c = false ∧ c ≠ '@' ∧ c ≠ ':' ∧ isAuthorityDelim c = false ∧
      (c == '/' || c == '\\') = false ∧ isC0OrSpace c = false ∧
      isTabOrNewline c = false ∧ tagCharOK c = true ∧ c ≠ '<' ∧ c ≠ '/' := by
  have hne : ∀ x : Char, hostCharOK x = false → c ≠ x := fun x hx => charOK_ne h hx
  have hv : 45 ≤ c.toNat := by
    simp only [hostCharOK, Bool.or_eq_true, Bool.and_eq_true, decide_eq_true_eq,
      beq_iff_eq] at h
    rcases h with ((⟨h1, _⟩ | ⟨h1, _⟩) | ⟨h1, _⟩) | rfl | rfl
    · omega
    · omega
    · omega
    · decide
    · decide
  have hval : c.val.toNat = c.toNat := rfl
  refine ⟨?_, hne '@' (by decide), hne ':' (by decide), ?_, ?_, ?_, ?_, ?_,
    hne '<' (by decide), hne '/' (by decide)⟩
  · simp only [isForbiddenHostChar, Bool.or_eq_false_iff, beq_eq_false_iff_ne, ne_eq]
    refine ⟨⟨⟨⟨⟨⟨⟨⟨⟨⟨⟨⟨⟨?_, hne ' ' (by decide)⟩, hne '#' (by decide)⟩,
      hne '/' (by decide)⟩, hne ':' (by decide)⟩, hne '<' (by decide)⟩,
      hne '>' (by decide)⟩, hne '?' (by decide)⟩, hne '@' (by decide)⟩,
      hne '[' (by decide)⟩, hne '\\' (by decide)⟩, hne ']' (by decide)⟩,
      hne '^' (by decide)⟩, hne '|' (by decide)⟩
    intro hz
    have : c.val.toNat = 0 := by rw [hz]; rfl
    omega
  · simp only [isAuthorityDelim, Bool.or_eq_false_iff, beq_eq_false_iff_ne, ne_eq]
    exact ⟨⟨⟨hne '/' (by decide), hne '\\' (by decide)⟩, hne '?' (by decide)⟩,
      hne '#' (by decide)⟩
  · simp only [Bool.or_eq_false_iff, beq_eq_false_iff_ne, ne_eq]
    exact ⟨hne '/' (by decide), hne '\\' (by decide)⟩
  · simp only [isC0OrSpace, decide_eq_false_iff_not, not_le]
    omega
  · simp only [isTabOrNewline, Bool.or_eq_false_iff, beq_eq_false_iff_ne, ne_eq]
    refine ⟨⟨?_, ?_⟩, ?_⟩ <;> omega
  · simp only [tagCharOK, Bool.and_eq_true, Bool.not_eq_true', beq_eq_false_iff_ne, ne_eq]
    refine ⟨⟨hne '<' (by decide), hne '>' (by decide)⟩, ?_⟩
    simp only [isQuote, Bool.or_eq_false_iff, beq_eq_false_iff_ne, ne_eq]
    exact ⟨hne '"' (by decide), hne '\'' (by decide)⟩

theorem nameCharOK_spec {c : Char} (h : nameCharOK c = true) :
    tagCharOK c = true ∧ c ≠ '<' ∧ c ≠ '=' ∧ c ≠ '.' ∧ c ≠ ':' ∧ c ≠ '@' ∧
      isC0OrSpace c = false ∧ isTabOrNewline c = false ∧ isQuote c = false := by
  have hne : ∀ x : Char, nameCharOK x = false → c ≠ x := fun x hx => charOK_ne h hx
  have hv : 45 ≤ c.toNat := by
    simp only [nameCharOK, Bool.or_eq_true, Bool.and_eq_true, decide_eq_true_eq,
      beq_iff_eq] at h
    rcases h with ((⟨h1, _⟩ | ⟨h1, _⟩) | ⟨h1, _⟩) | rfl | rfl
    · omega
    · omega
    · omega
    · decide
    · decide
  have hq : isQuote c = false := by
    simp only [isQuote, Bool.or_eq_false_iff, beq_eq_false_iff_ne, ne_eq]
    exact ⟨hne '"' (by decide), hne '\'' (by decide)⟩
  refine ⟨?_, hne '<' (by decide), hne '=' (by decide), hne '.' (by decide),
    hne ':' (by decide), hne '@' (by decide), ?_, ?_, hq⟩
  · simp only [tagCharOK, Bool.and_eq_true, Bool.not_eq_true', beq_eq_false_iff_ne, ne_eq]
    exact ⟨⟨hne '<' (by decide), hne '>' (by decide)⟩, hq⟩
  · simp only [isC0OrSpace, decide_eq_false_iff_not, not_le]
    omega
  · simp only [isTabOrNewline, Bool.or_eq_false_iff, beq_eq_false_iff_ne, ne_eq]
    refine ⟨⟨?_, ?_⟩, ?_⟩ <;> omega

theorem takeWhile_all {p : Char → Bool} :
    ∀ {l : List Char}, (∀ c ∈ l, p c = true) → l.takeWhile p = l
  | [], _ => rfl
  | c :: t, h => by
    rw [List.takeWhile_cons, if_pos (h c (by simp))]
    rw [takeWhile_all (fun d hd => h d (by simp [hd]))]

theorem dropWhile_all_pos {p : Char → Bool} :
    ∀ {l : List Char}, (∀ c ∈ l, p c = true) → l.dropWhile p = []
  | [], _ => rfl
  | c :: t, h => by
    rw [List.dropWhile_cons, if_pos (h c (by simp))]
    exact dropWhile_all_pos (fun d hd => h d (by simp [hd]))

theorem dropWhile_head_neg {p : Char → Bool} {c : Char} (t : List Char)
    (h : p c = false) : (c :: t).dropWhile p = c :: t := by
  rw [List.dropWhile_cons, if_neg (by simp [h])]

/-- Preprocessing is the identity on inputs free of C0 controls, spaces and
tab/newline characters. -/
theorem urlPreprocess_id {s : List Char}
    (h : ∀ c ∈ s, isC0OrSpace c = false ∧ isTabOrNewline c = false) :
    urlPreprocess s = s := by
  have h1 : s.dropWhile isC0OrSpace = s := by
    cases s with
    | nil => rfl
    | cons c t => exact dropWhile_head_neg t (h c (by simp)).1
  have h2 : s.reverse.dropWhile isC0OrSpace = s.reverse := by
    cases hs : s.reverse with
    | nil => rfl
    | cons c t =>
      refine dropWhile_head_neg t (h c ?_).1
      have : c ∈ s.reverse := by rw [hs]; simp
      simpa using this
  show ((s.dropWhile isC0OrSpace).reverse.dropWhile isC0OrSpace).reverse.filter
    (fun c => !isTabOrNewline c) = s
  rw [h1, h2, List.reverse_reverse]
  exact List.filter_eq_self.mpr fun a ha => by simp [(h a ha).2]

theorem getLast?_of_suffix {s a : List Char} (h : s <:+ a) (hne : s ≠ []) :
    a.getLast? = s.getLast? := by
  rcases h with ⟨w, rfl⟩
  exact List.getLast?_append_of_ne_nil w hne

/-- Evaluation of the authority parser on `HOST/tail` for a nonempty host of
well-behaved characters. -/
theorem parseAuthority_host (scheme : String) (allow : Bool) (host tail : List Char)
    (hne : host ≠ []) (hh : ∀ c ∈ host, hostCharOK c = true) :
    parseAuthority scheme allow (host ++ '/' :: tail) =
      some ⟨scheme, some (String.mk host)⟩ := by
  have h1 : List.takeWhile (fun c => !isAuthorityDelim c) (host ++ '/' :: tail) = host := by
    refine takeWhile_append_stop ?_ (by decide)
    intro c hcm
    simp [(hostCharOK_spec (hh c hcm)).2.2.2.1]
  have h2 : afterLastAt host = host := by
    unfold afterLastAt
    rw [takeWhile_all, List.reverse_reverse]
    intro c hcm
    have hcm' : c ∈ host := by simpa using hcm
    simp [(hostCharOK_spec (hh c hcm')).2.1]
  have h3 : List.takeWhile (fun c => decide (c ≠ ':')) host = host := by
    refine takeWhile_all ?_
    intro c hcm
    simp [(hostCharOK_spec (hh c hcm)).2.2.1]
  have h4 : List.dropWhile (fun c => decide (c ≠ ':')) host = [] := by
    refine dropWhile_all_pos ?_
    intro c hcm
    simp [(hostCharOK_spec (hh c hcm)).2.2.1]
  have hcond : ((allow || !host.isEmpty) && host.all (fun c => !isForbiddenHostChar c) &&
      portOK (List.drop 1 [])) = true := by
    simp only [Bool.and_eq_true, Bool.or_eq_true]
    refine ⟨⟨?_, ?_⟩, by decide⟩
    · cases host with
      | nil => exact absurd rfl hne
      | cons hc t => simp
    · refine List.all_eq_true.mpr ?_
      intro c hcm
      simp [(hostCharOK_spec (hh c hcm)).1]
  unfold parseAuthority
  dsimp only
  rw [h1, h2, h3, h4, if_pos hcond]

/-- Evaluation of the URL parser on `https://HOST/TAIL` for a well-behaved
abstract host and tail. -/
theorem parseURL_https (host tail : List Char) (hne : host ≠ [])
    (hh : ∀ c ∈ host, hostCharOK c = true)
    (ht : ∀ c ∈ tail, isC0OrSpace c = false ∧ isTabOrNewline c = false) :
    parseURL (String.mk ("https://".data ++ host ++ '/' :: tail)) =
      some ⟨"https", some (String.mk host)⟩ := by
  have hbenign : ∀ c ∈ "https://".data ++ host ++ '/' :: tail,
      isC0OrSpace c = false ∧ isTabOrNewline c = false := by
    intro c hc
    rcases List.mem_append.mp hc with hc1 | hc2
    · rcases List.mem_append.mp hc1 with hc3 | hc4
      · exact (show ∀ x ∈ "https://".data, isC0OrSpace x = false ∧
          isTabOrNewline x = false by decide) c hc3
      · have hs := hostCharOK_spec (hh c hc4)
        exact ⟨hs.2.2.2.2.2.1, hs.2.2.2.2.2.2.1⟩
    · rcases List.mem_cons.mp hc2 with rfl | hc5
      · exact ⟨by decide, by decide⟩
      · exact ht c hc5
  have hcs : "https://".data ++ host ++ '/' :: tail =
      'h' :: 't' :: 't' :: 'p' :: 's' :: ':' :: '/' :: '/' :: (host ++ '/' :: tail) := by
    simp
  have hpre : urlPreprocess (String.mk ("https://".data ++ host ++ '/' :: tail)).data =
      'h' :: 't' :: 't' :: 'p' :: 's' :: ':' :: '/' :: '/' :: (host ++ '/' :: tail) := by
    rw [show (String.mk ("https://".data ++ host ++ '/' :: tail)).data =
      "https://".data ++ host ++ '/' :: tail from rfl, urlPreprocess_id hbenign]
    exact hcs
  have hdw : List.dropWhile (fun c => c == '/' || c == '\\')
      (host ++ '/' :: tail) = host ++ '/' :: tail := by
    cases host with
    | nil => exact absurd rfl hne
    | cons hc t =>
      rw [List.cons_append]
      exact dropWhile_head_neg _ (hostCharOK_spec (hh hc (by simp))).2.2.2.2.1
  unfold parseURL
  rw [hpre]
  show parseAuthority "https" false
    (List.dropWhile (fun c => c == '/' || c == '\\') (host ++ '/' :: tail)) =
      some ⟨"https", some (String.mk host)⟩
  rw [hdw]
  exact parseAuthority_host "https" false host tail hne hh

/-- Skipping a whole chain of segments, each of which either kills every
potential tag start (concrete text) or is free of the tag-opening character
(abstract text). -/
theorem replacePass_skip_segs {tag lit : List Char} (nb : List Char) {ch : Char}
    (h0 : tag[0]? = some ch) (segs : List (List Char)) (t : List Char)
    (h : ∀ s ∈ segs, allStartsDie tag s = true ∨ ch ∉ s) :
    replacePass tag lit nb (segs.foldr (fun a b => a ++ b) t) =
      segs.foldr (fun a b => a ++ b) (replacePass tag lit nb t) := by
  induction segs with
  | nil => rfl
  | cons s ss ih =>
    simp only [List.foldr_cons]
    rcases h s (by simp) with hd | hd
    · rw [replacePass_skip_die nb _ hd, ih (fun x hx => h x (by simp [hx]))]
    · rw [replacePass_skip_seg nb h0 hd, ih (fun x hx => h x (by simp [hx]))]

/-! Concrete segments of the synthesized widget HTML template. -/

def tpl1 : String := "<!DOCTYPE html>\n<html lang=\"en\">\n  <head>\n    <meta charset=\"UTF-8\" />\n    <meta name=\"viewport\" content=\"width=device-width, initial-scale=1.0\" />\n    <title>"

def tpl2 : String := " Widget</title>\n  </head>\n  <body>\n    <div id=\"root\"></div>\n    <script type=\"module\" src=\"virtual:chatgpt-widget-entrypoint-"

def tpl3 : String := ".js\"></script>\n  </body>\n</html>"

def tpl2a : String := " Widget</title>\n  </head>\n  <body>\n    <div id=\"root\"></div>\n    "

def tplTail : String := "</script>\n  </body>\n</html>"

theorem gen_data (name : String) : (generateWidgetEntrypointHTML name).data =
    tpl1.data ++ name.data ++ tpl2.data ++ name.data ++ tpl3.data := by
  show (tpl1 ++ name ++ tpl2 ++ name ++ tpl3).data = _
  simp

theorem resolveIdHook_html (name : String) :
    resolveIdHook (virtualHtmlId name) = some (virtualHtmlId name) := by
  have h1 : strStartsWith "virtual:chatgpt-widget-html-" (virtualHtmlId name) = true := by
    unfold strStartsWith virtualHtmlId
    simp
  have h2 : strEndsWith ".html" (virtualHtmlId name) = true := by
    unfold strEndsWith virtualHtmlId
    simp only [String.data_append, List.isSuffixOf_iff_suffix]
    exact ⟨"virtual:chatgpt-widget-html-".data ++ name.data, by simp⟩
  unfold resolveIdHook
  rw [h1, h2]
  rfl

theorem loadHtmlHook_html (name : String) (hn : '.' ∉ name.data) :
    loadHtmlHook (virtualHtmlId name) = some (generateWidgetEntrypointHTML name) := by
  have h1 : strStartsWith "virtual:chatgpt-widget-html-" (virtualHtmlId name) = true := by
    unfold strStartsWith virtualHtmlId
    simp
  have h2 : strEndsWith ".html" (virtualHtmlId name) = true := by
    unfold strEndsWith virtualHtmlId
    simp only [String.data_append, List.isSuffixOf_iff_suffix]
    exact ⟨"virtual:chatgpt-widget-html-".data ++ name.data, by simp⟩
  have hid : (virtualHtmlId name).data =
      "virtual:chatgpt-widget-html-".data ++ (name.data ++ ".html".data) := by
    unfold virtualHtmlId
    simp
  have hr1 : replaceFirst "virtual:chatgpt-widget-html-".data [] (virtualHtmlId name).data =
      name.data ++ ".html".data := by
    rw [hid, replaceFirst_match [] (by decide)]
    rfl
  have hr2 : replaceFirst ".html".data [] (name.data ++ ".html".data) = name.data := by
    rw [replaceFirst_append_skip []
      (kill_head (show (".html".data)[0]? = some '.' from rfl) hn ".html".data)]
    have hself : replaceFirst ".html".data [] ".html".data = [] := by
      have := @replaceFirst_match ".html".data [] (by decide) []
      simpa using this
    rw [hself]
    simp
  unfold loadHtmlHook
  rw [h1, h2]
  show some (generateWidgetEntrypointHTML (String.mk (replaceFirst ".html".data []
    (replaceFirst "virtual:chatgpt-widget-html-".data [] (virtualHtmlId name).data)))) = _
  rw [hr1, hr2]

theorem handler_serve_nil (filename? : Option String) (html : String) :
    transformIndexHtmlHandler "serve" [] filename? html = html := by
  unfold transformIndexHtmlHandler
  simp

instance instDecNoQuote (l : List Char) : Decidable (noQuote l) :=
  inferInstanceAs (Decidable (∀ c ∈ l, isQuote c = false))

instance instDecNoGt (l : List Char) : Decidable (noGt l) :=
  inferInstanceAs (Decidable (∀ c ∈ l, c ≠ '>'))

/-- The dev-server widget HTML as finally served: the template with the
virtual entry rewritten to `/@id/` form and then absolutized. -/
def devHtmlData (host name : String) : List Char :=
  tpl1.data ++ (name.data ++ (tpl2a.data ++ ("<script type=\"module\" src=\"".data ++
    ("https://".data ++ (host.data ++ ('/' ::
      ("@id/virtual:chatgpt-widget-entrypoint-".data ++ (name.data ++
        (".js".data ++ ('"' :: '>' :: tplTail.data))))))))))

/-- The virtual-entry rewrite (`String.replace` with the global pattern
`src="virtual:chatgpt-widget-entrypoint-`) on the synthesized template
rewrites exactly the one occurrence. -/
theorem entry_rewrite (name : String) (hn : ∀ c ∈ name.data, nameCharOK c = true) :
    replaceAllLit virtualEntryPat virtualEntryRep
        (generateWidgetEntrypointHTML name).data =
      tpl1.data ++ (name.data ++ ((tpl2a.data ++ "<script type=\"module\" ".data) ++
        (virtualEntryRep ++ (name.data ++ tpl3.data)))) := by
  have heqne : '=' ∉ name.data := fun hmem => (nameCharOK_spec (hn '=' hmem)).2.2.1 rfl
  have htpl2 : tpl2.data = (tpl2a.data ++ "<script type=\"module\" ".data) ++
      virtualEntryPat := by decide
  have hshape : tpl1.data ++ name.data ++ tpl2.data ++ name.data ++ tpl3.data =
      tpl1.data ++ (name.data ++ ((tpl2a.data ++ "<script type=\"module\" ".data) ++
        (virtualEntryPat ++ (name.data ++ tpl3.data)))) := by
    rw [htpl2]
    simp [List.append_assoc]
  rw [gen_data, hshape]
  rw [replaceAllLit_append_skip _ (fun n hn2 => allStartsDie_spec (by decide) _ n hn2)]
  rw [replaceAllLit_append_skip _ (kill_at (i := 3) (by decide) heqne
    (show ((tpl2a.data ++ "<script type=\"module\" ".data) ++ (virtualEntryPat ++
      (name.data ++ tpl3.data)))[0]? = some ' ' from by
        rw [List.getElem?_append_left (by decide), List.getElem?_append_left (by decide)]
        decide)
    (by decide))]
  rw [replaceAllLit_append_skip _ (fun n hn2 => allStartsDie_spec (by decide) _ n hn2)]
  rw [replaceAllLit_match _ (by decide)]
  rw [replaceAllLit_append_skip _ (kill_at (i := 3) (by decide) heqne
    (show (tpl3.data)[0]? = some '.' from by decide) (by decide))]
  have h3 : replaceAllLit virtualEntryPat virtualEntryRep tpl3.data = tpl3.data := by
    have := replaceAllLit_append_skip (a := tpl3.data) (t := []) virtualEntryRep
      (fun n hn2 => allStartsDie_spec
        (show allStartsDie virtualEntryPat tpl3.data = true from by decide) [] n hn2)
    simpa using this
  rw [h3]

/-- The absolutizer on the `/@id/`-rewritten dev HTML: the script pass
rewrites the single script tag to the absolute base, the link pass is the
identity. -/
theorem dev_transform (host name : String)
    (_hhne : host.data ≠ []) (hh : ∀ c ∈ host.data, hostCharOK c = true)
    (hn : ∀ c ∈ name.data, nameCharOK c = true) :
    transformHtmlWithAbsoluteUrls
        (String.mk (tpl1.data ++ (name.data ++ ((tpl2a.data ++
          "<script type=\"module\" ".data) ++ (virtualEntryRep ++
            (name.data ++ tpl3.data))))))
        ("https://" ++ host ++ "/") =
      String.mk (devHtmlData host name) := by
  have hnlt : '<' ∉ name.data := fun hmem => (nameCharOK_spec (hn '<' hmem)).2.1 rfl
  have hhlt : '<' ∉ host.data := fun hmem => (hostCharOK_spec (hh '<' hmem)).2.2.2.2.2.2.2.2.1 rfl
  have hnb : normalizedBaseChars ("https://" ++ host ++ "/") =
      "https://".data ++ (host.data ++ ['/']) := by
    unfold normalizedBaseChars
    have hd : ("https://" ++ host ++ "/").data =
        ("https://".data ++ host.data) ++ ['/'] := by simp
    rw [hd, if_pos]
    · simp
    · rw [List.getLast?_append_of_ne_nil _ (by decide)]
      rfl
  set u : List Char := "@id/virtual:chatgpt-widget-entrypoint-".data ++
    (name.data ++ ".js".data) with hu
  have hune : u ≠ [] := by
    intro h
    exact absurd (List.append_eq_nil.mp h).1 (by decide)
  have huq : noQuote u := by
    intro c hc
    rcases List.mem_append.mp hc with h | h
    · exact (show noQuote "@id/virtual:chatgpt-widget-entrypoint-".data from by decide) c h
    · rcases List.mem_append.mp h with h2 | h2
      · exact (nameCharOK_spec (hn c h2)).2.2.2.2.2.2.2.2
      · exact (show noQuote ".js".data from by decide) c h2
  have hug : noGt u := by
    intro c hc
    rcases List.mem_append.mp hc with h | h
    · exact (show noGt "@id/virtual:chatgpt-widget-entrypoint-".data from by decide) c h
    · rcases List.mem_append.mp h with h2 | h2
      · exact (tagCharOK_spec (nameCharOK_spec (hn c h2)).1).2.1
      · exact (show noGt ".js".data from by decide) c h2
  have hsuf : ¬ srcLit <:+ u := by
    intro hs
    have h1 := getLast?_of_suffix hs (by decide)
    rw [hu, List.getLast?_append_of_ne_nil _ (by simp),
      List.getLast?_append_of_ne_nil _ (by decide)] at h1
    rw [show (".js".data).getLast? = some 's' from by decide,
      show srcLit.getLast? = some '=' from by decide] at h1
    simp at h1
  have hmatch : tagMatch scriptTag srcLit
      (scriptTag ++ (" type=\"module\" ".data ++ (srcLit ++ '"' :: '/' ::
        (u ++ '"' :: ([] ++ '>' :: tplTail.data))))) =
      some (" type=\"module\" ".data, ⟨'"', u, '"', [] ++ '>' :: tplTail.data⟩) :=
    tagMatch_designate (by decide) (by decide) (by decide) (by decide) (by decide)
      hune huq hug hsuf (fun c hc => absurd hc (by simp)) (fun c hc => absurd hc (by simp))
      (kill_by_head (show srcLit[0]? = some 's' from by decide)
        (show 's' ∉ " type=\"module\" ".data from by decide) _)
  have hrest : replacePass scriptTag srcLit ("https://".data ++ (host.data ++ ['/']))
      ([] ++ '>' :: tplTail.data) = '>' :: tplTail.data := by
    rw [List.nil_append]
    exact replacePass_all_die _ (by decide)
  have hscript : replacePass scriptTag srcLit ("https://".data ++ (host.data ++ ['/']))
      (tpl1.data ++ (name.data ++ ((tpl2a.data ++ "<script type=\"module\" ".data) ++
        (virtualEntryRep ++ (name.data ++ tpl3.data))))) = devHtmlData host name := by
    have hshape : tpl1.data ++ (name.data ++ ((tpl2a.data ++
        "<script type=\"module\" ".data) ++ (virtualEntryRep ++
          (name.data ++ tpl3.data)))) =
        [tpl1.data, name.data, tpl2a.data].foldr (fun a b => a ++ b)
          (scriptTag ++ (" type=\"module\" ".data ++ (srcLit ++ '"' :: '/' ::
            (u ++ '"' :: ([] ++ '>' :: tplTail.data))))) := by
      rw [show virtualEntryRep = "src=".data ++ '"' :: '/' ::
        "@id/virtual:chatgpt-widget-entrypoint-".data from by decide,
        show tpl3.data = ".js".data ++ '"' :: '>' :: tplTail.data from by decide,
        show "<script type=\"module\" ".data =
          "<script".data ++ " type=\"module\" ".data from by decide]
      simp [hu, scriptTag, srcLit, List.append_assoc]
    rw [hshape]
    rw [replacePass_skip_segs _ (show scriptTag[0]? = some '<' from rfl) _ _ ?hsegs]
    case hsegs =>
      intro s hs
      simp only [List.mem_cons, List.not_mem_nil, or_false] at hs
      rcases hs with rfl | rfl | rfl
      · exact Or.inl (by decide)
      · exact Or.inr hnlt
      · exact Or.inl (by decide)
    rw [show ([tpl1.data, name.data, tpl2a.data].foldr (fun a b => a ++ b)
      (replacePass scriptTag srcLit ("https://".data ++ (host.data ++ ['/']))
        (scriptTag ++ (" type=\"module\" ".data ++ (srcLit ++ '"' :: '/' ::
          (u ++ '"' :: ([] ++ '>' :: tplTail.data))))))) =
      tpl1.data ++ (name.data ++ (tpl2a.data ++
        (replacePass scriptTag srcLit ("https://".data ++ (host.data ++ ['/']))
          (scriptTag ++ (" type=\"module\" ".data ++ (srcLit ++ '"' :: '/' ::
            (u ++ '"' :: ([] ++ '>' :: tplTail.data)))))))) from rfl]
    rw [replacePass_match_ne _ (by simp [scriptTag]) hmatch]
    rw [show (⟨'"', u, '"', [] ++ '>' :: tplTail.data⟩ : ContM).rest =
      [] ++ '>' :: tplTail.data from rfl]
    rw [hrest]
    unfold devHtmlData
    rw [show "<script type=\"module\" src=\"".data =
      scriptTag ++ (" type=\"module\" ".data ++ ("src=".data ++ ['"'])) from by decide]
    simp [hu, scriptTag, srcLit, List.append_assoc]
  have hlink : replacePass linkTag hrefLit ("https://".data ++ (host.data ++ ['/']))
      (devHtmlData host name) = devHtmlData host name := by
    have hshape : devHtmlData host name =
        [tpl1.data, name.data, tpl2a.data, "<script type=\"module\" src=\"".data,
          "https://".data, host.data, ['/'],
          "@id/virtual:chatgpt-widget-entrypoint-".data, name.data,
          ".js".data].foldr (fun a b => a ++ b) ('"' :: '>' :: tplTail.data) := rfl
    rw [hshape]
    rw [replacePass_skip_segs _ (show linkTag[0]? = some '<' from rfl) _ _ ?hsegs2]
    case hsegs2 =>
      intro s hs
      simp only [List.mem_cons, List.not_mem_nil, or_false] at hs
      rcases hs with rfl | rfl | rfl | rfl | rfl | rfl | rfl | rfl | rfl | rfl
      · exact Or.inl (by decide)
      · exact Or.inr hnlt
      · exact Or.inl (by decide)
      · exact Or.inl (by decide)
      · exact Or.inl (by decide)
      · exact Or.inr hhlt
      · exact Or.inl (by decide)
      · exact Or.inl (by decide)
      · exact Or.inr hnlt
      · exact Or.inl (by decide)
    rw [replacePass_all_die _ (show allStartsDie linkTag ('"' :: '>' :: tplTail.data) =
      true from by decide)]
  show String.mk (replacePass linkTag hrefLit
    (normalizedBaseChars ("https://" ++ host ++ "/"))
    (replacePass scriptTag srcLit (normalizedBaseChars ("https://" ++ host ++ "/"))
      (String.mk (tpl1.data ++ (name.data ++ ((tpl2a.data ++
        "<script type=\"module\" ".data) ++ (virtualEntryRep ++
          (name.data ++ tpl3.data)))))).data)) = String.mk (devHtmlData host name)
  rw [hnb]
  rw [show (String.mk (tpl1.data ++ (name.data ++ ((tpl2a.data ++
    "<script type=\"module\" ".data) ++ (virtualEntryRep ++
      (name.data ++ tpl3.data)))))).data = tpl1.data ++ (name.data ++ ((tpl2a.data ++
        "<script type=\"module\" ".data) ++ (virtualEntryRep ++
          (name.data ++ tpl3.data)))) from rfl]
  rw [hscript, hlink]

/-- Full evaluation of the dev-server branch of `getWidgetHTML` (no react
plugins, explicit plugin base URL `https://HOST/`). -/
theorem getWidgetHTMLDev_eval (host name : String)
    (hhne : host.data ≠ []) (hh : ∀ c ∈ host.data, hostCharOK c = true)
    (hn : ∀ c ∈ name.data, nameCharOK c = true) :
    getWidgetHTMLDev [] (some ("https://" ++ host ++ "/")) "" name =
      .ok (String.mk (devHtmlData host name), .devServer) := by
  have hdot : '.' ∉ name.data := fun hmem => (nameCharOK_spec (hn '.' hmem)).2.2.2.1 rfl
  have hraw_ne : generateWidgetEntrypointHTML name ≠ "" := by
    intro h
    have hdata := congrArg String.data h
    rw [gen_data] at hdata
    have h1 : tpl1.data = [] := (List.append_eq_nil.mp (List.append_eq_nil.mp
      (List.append_eq_nil.mp (List.append_eq_nil.mp hdata).1).1).1).1
    exact absurd h1 (by decide)
  have hbase_ne : ("https://" ++ host ++ "/" : String) ≠ "" := by
    intro h
    have hdata := congrArg String.data h
    simp at hdata
  have habs : isAbsoluteUrl ("https://" ++ host ++ "/") = true := by
    unfold isAbsoluteUrl
    have hsm : ("https://" ++ host ++ "/" : String) =
        String.mk ("https://".data ++ host.data ++ '/' :: []) := by
      refine String.ext ?_
      simp
    rw [hsm, parseURL_https host.data [] hhne hh (fun c hc => absurd hc (by simp))]
    rfl
  simp only [getWidgetHTMLDev, resolveIdHook_html, loadHtmlHook_html name hdot,
    devTransformIndexHtml, handler_serve_nil, Option.getD_some, hraw_ne,
    if_false, ite_false, habs, Bool.not_true, hbase_ne, ne_eq, not_false_eq_true,
    if_true, ite_true]
  rw [entry_rewrite name hn, dev_transform host name hhne hh hn]
  exact if_neg (by simp)

theorem nb_https (host : String) :
    normalizedBaseChars ("https://" ++ host ++ "/") =
      "https://".data ++ (host.data ++ ['/']) := by
  unfold normalizedBaseChars
  have hd : ("https://" ++ host ++ "/").data =
      ("https://".data ++ host.data) ++ ['/'] := by simp
  rw [hd, if_pos]
  · simp
  · rw [List.getLast?_append_of_ne_nil _ (by decide)]
    rfl

/-- Decomposition of the (spec-modelled) production build artifact. -/
theorem prod_data (host name hash : String) :
    (prodBuiltWidgetHTML name ("https://" ++ host ++ "/") hash).data =
      tpl1.data ++ (name.data ++ (tpl2a.data ++ ("<script type=\"module\" src=\"".data ++
        ("https://".data ++ (host.data ++ ('/' :: ("assets/chatgpt-widget-".data ++
          (name.data ++ ('-' :: (hash.data ++ (".js".data ++
            ('"' :: '>' :: tplTail.data)))))))))))) := by
  simp only [prodBuiltWidgetHTML, nb_https, String.data_append]
  simp [tpl1, tpl2a, tplTail, List.append_assoc]

theorem head?_notin_of {pat s : List Char} {x : Char} (hx : s.head? = some x)
    (hmem : x ∉ pat) : ∀ ch, s.head? = some ch → ch ∉ pat := by
  intro ch hch
  rw [hx] at hch
  have hxc : x = ch := by simpa using hch
  subst hxc
  exact hmem

/-- The production artifact contains no occurrence of `virtual:`. -/
theorem prod_no_virtual (host name hash : String)
    (hh : ∀ c ∈ host.data, hostCharOK c = true)
    (hn : ∀ c ∈ name.data, nameCharOK c = true)
    (hs : ∀ c ∈ hash.data, nameCharOK c = true) :
    containsSub "virtual:".data
      (prodBuiltWidgetHTML name ("https://" ++ host ++ "/") hash).data ≠ true := by
  have hnc : ∀ (l : List Char), (∀ c ∈ l, nameCharOK c = true) →
      containsSub "virtual:".data l ≠ true := fun l hl =>
    not_containsSub_of_not_mem (show ':' ∈ "virtual:".data from by decide)
      (fun hmem => (nameCharOK_spec (hl ':' hmem)).2.2.2.2.1 rfl)
  have hhc : containsSub "virtual:".data host.data ≠ true :=
    not_containsSub_of_not_mem (show ':' ∈ "virtual:".data from by decide)
      (fun hmem => (hostCharOK_spec (hh ':' hmem)).2.2.1 rfl)
  rw [prod_data]
  have l9 : containsSub "virtual:".data (".js".data ++ ('"' :: '>' :: tplTail.data)) ≠
      true := by decide
  have l8 : containsSub "virtual:".data (hash.data ++ (".js".data ++
      ('"' :: '>' :: tplTail.data))) ≠ true :=
    not_containsSub_append_head (hnc _ hs) l9 (by decide)
  have l7 : containsSub "virtual:".data ('-' :: (hash.data ++ (".js".data ++
      ('"' :: '>' :: tplTail.data)))) ≠ true := by
    rw [show ('-' :: (hash.data ++ (".js".data ++ ('"' :: '>' :: tplTail.data)))) =
      ['-'] ++ (hash.data ++ (".js".data ++ ('"' :: '>' :: tplTail.data))) from rfl]
    exact not_containsSub_append_last (by decide) l8 (by decide)
  have l6 : containsSub "virtual:".data (name.data ++ ('-' :: (hash.data ++
      (".js".data ++ ('"' :: '>' :: tplTail.data))))) ≠ true :=
    not_containsSub_append_head (hnc _ hn) l7 (head?_notin_of rfl (by decide))
  have l5 : containsSub "virtual:".data ("assets/chatgpt-widget-".data ++
      (name.data ++ ('-' :: (hash.data ++ (".js".data ++
        ('"' :: '>' :: tplTail.data)))))) ≠ true :=
    not_containsSub_append_last (by decide) l6 (by decide)
  have l4 : containsSub "virtual:".data ('/' :: ("assets/chatgpt-widget-".data ++
      (name.data ++ ('-' :: (hash.data ++ (".js".data ++
        ('"' :: '>' :: tplTail.data))))))) ≠ true := by
    rw [show ('/' :: ("assets/chatgpt-widget-".data ++ (name.data ++ ('-' ::
      (hash.data ++ (".js".data ++ ('"' :: '>' :: tplTail.data))))))) =
      ['/'] ++ ("assets/chatgpt-widget-".data ++ (name.data ++ ('-' ::
        (hash.data ++ (".js".data ++ ('"' :: '>' :: tplTail.data)))))) from rfl]
    exact not_containsSub_append_last (by decide) l5 (by decide)
  have l3 : containsSub "virtual:".data (host.data ++ ('/' ::
      ("assets/chatgpt-widget-".data ++ (name.data ++ ('-' :: (hash.data ++
        (".js".data ++ ('"' :: '>' :: tplTail.data)))))))) ≠ true :=
    not_containsSub_append_head hhc l4 (head?_notin_of rfl (by decide))
  have l2 : containsSub "virtual:".data ("https://".data ++ (host.data ++ ('/' ::
      ("assets/chatgpt-widget-".data ++ (name.data ++ ('-' :: (hash.data ++
        (".js".data ++ ('"' :: '>' :: tplTail.data))))))))) ≠ true :=
    not_containsSub_append_last (by decide) l3 (by decide)
  have l1 : containsSub "virtual:".data ("<script type=\"module\" src=\"".data ++
      ("https://".data ++ (host.data ++ ('/' :: ("assets/chatgpt-widget-".data ++
        (name.data ++ ('-' :: (hash.data ++ (".js".data ++
          ('"' :: '>' :: tplTail.data)))))))))) ≠ true :=
    not_containsSub_append_last (by decide) l2 (by decide)
  have l0 : containsSub "virtual:".data (tpl2a.data ++
      ("<script type=\"module\" src=\"".data ++ ("https://".data ++ (host.data ++
        ('/' :: ("assets/chatgpt-widget-".data ++ (name.data ++ ('-' :: (hash.data ++
          (".js".data ++ ('"' :: '>' :: tplTail.data))))))))))) ≠ true :=
    not_containsSub_append_last (by decide) l1 (by decide)
  have lm : containsSub "virtual:".data (name.data ++ (tpl2a.data ++
      ("<script type=\"module\" src=\"".data ++ ("https://".data ++ (host.data ++
        ('/' :: ("assets/chatgpt-widget-".data ++ (name.data ++ ('-' :: (hash.data ++
          (".js".data ++ ('"' :: '>' :: tplTail.data)))))))))))) ≠ true :=
    not_containsSub_append_head (hnc _ hn) l0 (head?_notin_of rfl (by decide))
  exact not_containsSub_append_last (by decide) lm (by decide)

/-- The production artifact contains no occurrence of `/@id/`: the character
`@` does not occur in it at all. -/
theorem prod_no_atid (host name hash : String)
    (hh : ∀ c ∈ host.data, hostCharOK c = true)
    (hn : ∀ c ∈ name.data, nameCharOK c = true)
    (hs : ∀ c ∈ hash.data, nameCharOK c = true) :
    containsSub "/@id/".data
      (prodBuiltWidgetHTML name ("https://" ++ host ++ "/") hash).data ≠ true := by
  refine not_containsSub_of_not_mem (show '@' ∈ "/@id/".data from by decide) ?_
  rw [prod_data]
  intro hm
  rcases List.mem_append.mp hm with h | h
  · exact absurd h (by decide)
  rcases List.mem_append.mp h with h | h
  · exact (nameCharOK_spec (hn '@' h)).2.2.2.2.2.1 rfl
  rcases List.mem_append.mp h with h | h
  · exact absurd h (by decide)
  rcases List.mem_append.mp h with h | h
  · exact absurd h (by decide)
  rcases List.mem_append.mp h with h | h
  · exact absurd h (by decide)
  rcases List.mem_append.mp h with h | h
  · exact (hostCharOK_spec (hh '@' h)).2.1 rfl
  rcases List.mem_cons.mp h with h | h
  · exact absurd h (by decide)
  rcases List.mem_append.mp h with h | h
  · exact absurd h (by decide)
  rcases List.mem_append.mp h with h | h
  · exact (nameCharOK_spec (hn '@' h)).2.2.2.2.2.1 rfl
  rcases List.mem_cons.mp h with h | h
  · exact absurd h (by decide)
  rcases List.mem_append.mp h with h | h
  · exact (nameCharOK_spec (hs '@' h)).2.2.2.2.2.1 rfl
  rcases List.mem_append.mp h with h | h
  · exact absurd h (by decide)
  exact absurd h (by decide)

def tpl1a : String := "<!DOCTYPE html>\n<html lang=\"en\">\n  <head>\n    <meta charset=\"UTF-8\" />\n    <meta name=\"viewport\" content=\"width=device-width, initial-scale=1.0\" />\n    "

def tpl2b : String := "\n  </head>\n  <body>\n    <div id=\"root\"></div>\n    "

/-- Claim C1: for every widget name and the effective absolute base
`https://HOST/`, the dev-server path of `getWidgetHTML` succeeds, and its
output and the (spec-modelled) production artifact are structurally
equivalent: both contain the same `<title>NAME Widget</title>`, the same
mount element `<div id="root"></div>`, and a module script tag whose `src`
is an absolute URL (as judged by this very plugin\x27s validator), while the
production output contains neither `virtual:` nor `/@id/`. -/
theorem c1_dev_prod_structural_equivalence (host name hash : String)
    (hhne : host.data ≠ []) (hh : ∀ c ∈ host.data, hostCharOK c = true)
    (hn : ∀ c ∈ name.data, nameCharOK c = true)
    (hs : ∀ c ∈ hash.data, nameCharOK c = true) :
    ∃ devHtml,
      getWidgetHTMLDev [] (some ("https://" ++ host ++ "/")) "" name =
        .ok (devHtml, .devServer) ∧
      (containsSub ("<title>" ++ name ++ " Widget</title>").data devHtml.data = true ∧
       containsSub ("<title>" ++ name ++ " Widget</title>").data
         (prodBuiltWidgetHTML name ("https://" ++ host ++ "/") hash).data = true) ∧
      (containsSub "<div id=\"root\"></div>".data devHtml.data = true ∧
       containsSub "<div id=\"root\"></div>".data
         (prodBuiltWidgetHTML name ("https://" ++ host ++ "/") hash).data = true) ∧
      (∃ u v, devHtml.data = u ++ ("src=\"".data ++
          (("https://" ++ host ++ "/@id/virtual:chatgpt-widget-entrypoint-" ++ name ++
            ".js").data ++ '"' :: v)) ∧
        isAbsoluteUrl ("https://" ++ host ++ "/@id/virtual:chatgpt-widget-entrypoint-" ++
          name ++ ".js") = true) ∧
      (∃ u v, (prodBuiltWidgetHTML name ("https://" ++ host ++ "/") hash).data =
          u ++ ("src=\"".data ++
            (("https://" ++ host ++ "/assets/chatgpt-widget-" ++ name ++ "-" ++ hash ++
              ".js").data ++ '"' :: v)) ∧
        isAbsoluteUrl ("https://" ++ host ++ "/assets/chatgpt-widget-" ++ name ++ "-" ++
          hash ++ ".js") = true) ∧
      containsSub "virtual:".data
        (prodBuiltWidgetHTML name ("https://" ++ host ++ "/") hash).data ≠ true ∧
      containsSub "/@id/".data
        (prodBuiltWidgetHTML name ("https://" ++ host ++ "/") hash).data ≠ true := by
  have hbenname : ∀ c ∈ name.data, isC0OrSpace c = false ∧ isTabOrNewline c = false :=
    fun c hc => ⟨(nameCharOK_spec (hn c hc)).2.2.2.2.2.2.1,
      (nameCharOK_spec (hn c hc)).2.2.2.2.2.2.2.1⟩
  have hbenhash : ∀ c ∈ hash.data, isC0OrSpace c = false ∧ isTabOrNewline c = false :=
    fun c hc => ⟨(nameCharOK_spec (hs c hc)).2.2.2.2.2.2.1,
      (nameCharOK_spec (hs c hc)).2.2.2.2.2.2.2.1⟩
  have habs1 : isAbsoluteUrl ("https://" ++ host ++
      "/@id/virtual:chatgpt-widget-entrypoint-" ++ name ++ ".js") = true := by
    have heq : ("https://" ++ host ++ "/@id/virtual:chatgpt-widget-entrypoint-" ++
        name ++ ".js" : String) = String.mk ("https://".data ++ host.data ++ '/' ::
          ("@id/virtual:chatgpt-widget-entrypoint-".data ++
            (name.data ++ ".js".data))) := by
      refine String.ext ?_
      simp
    unfold isAbsoluteUrl
    rw [heq, parseURL_https host.data _ hhne hh ?hben1]
    · rfl
    case hben1 =>
      intro c hc
      rcases List.mem_append.mp hc with h | h
      · exact (show ∀ x ∈ "@id/virtual:chatgpt-widget-entrypoint-".data,
          isC0OrSpace x = false ∧ isTabOrNewline x = false from by decide) c h
      rcases List.mem_append.mp h with h | h
      · exact hbenname c h
      · exact (show ∀ x ∈ ".js".data,
          isC0OrSpace x = false ∧ isTabOrNewline x = false from by decide) c h
  have habs2 : isAbsoluteUrl ("https://" ++ host ++ "/assets/chatgpt-widget-" ++
      name ++ "-" ++ hash ++ ".js") = true := by
    have heq : ("https://" ++ host ++ "/assets/chatgpt-widget-" ++ name ++ "-" ++
        hash ++ ".js" : String) = String.mk ("https://".data ++ host.data ++ '/' ::
          ("assets/chatgpt-widget-".data ++
            (name.data ++ ('-' :: (hash.data ++ ".js".data))))) := by
      refine String.ext ?_
      simp
    unfold isAbsoluteUrl
    rw [heq, parseURL_https host.data _ hhne hh ?hben2]
    · rfl
    case hben2 =>
      intro c hc
      rcases List.mem_append.mp hc with h | h
      · exact (show ∀ x ∈ "assets/chatgpt-widget-".data,
          isC0OrSpace x = false ∧ isTabOrNewline x = false from by decide) c h
      rcases List.mem_append.mp h with h | h
      · exact hbenname c h
      rcases List.mem_cons.mp h with h | h
      · subst h
        exact ⟨by decide, by decide⟩
      rcases List.mem_append.mp h with h | h
      · exact hbenhash c h
      · exact (show ∀ x ∈ ".js".data,
          isC0OrSpace x = false ∧ isTabOrNewline x = false from by decide) c h
  refine ⟨String.mk (devHtmlData host name),
    getWidgetHTMLDev_eval host name hhne hh hn, ⟨?_, ?_⟩, ⟨?_, ?_⟩, ?_, ?_,
    prod_no_virtual host name hash hh hn hs, prod_no_atid host name hash hh hn hs⟩
  · refine (containsSub_iff _ _).mpr ⟨tpl1a.data, tpl2b.data ++
      ("<script type=\"module\" src=\"".data ++ ("https://".data ++ (host.data ++
        ('/' :: ("@id/virtual:chatgpt-widget-entrypoint-".data ++ (name.data ++
          (".js".data ++ ('"' :: '>' :: tplTail.data)))))))), ?_⟩
    show devHtmlData host name = _
    simp [devHtmlData, tpl1, tpl1a, tpl2a, tpl2b, List.append_assoc]
  · refine (containsSub_iff _ _).mpr ⟨tpl1a.data, tpl2b.data ++
      ("<script type=\"module\" src=\"".data ++ ("https://".data ++ (host.data ++
        ('/' :: ("assets/chatgpt-widget-".data ++ (name.data ++ ('-' :: (hash.data ++
          (".js".data ++ ('"' :: '>' :: tplTail.data)))))))))), ?_⟩
    rw [prod_data]
    simp [tpl1, tpl1a, tpl2a, tpl2b, List.append_assoc]
  · refine (containsSub_iff _ _).mpr ⟨tpl1.data ++ (name.data ++
      " Widget</title>\n  </head>\n  <body>\n    ".data),
      "\n    ".data ++ ("<script type=\"module\" src=\"".data ++ ("https://".data ++
        (host.data ++ ('/' :: ("@id/virtual:chatgpt-widget-entrypoint-".data ++
          (name.data ++ (".js".data ++ ('"' :: '>' :: tplTail.data)))))))), ?_⟩
    show devHtmlData host name = _
    simp [devHtmlData, tpl1, tpl2a, List.append_assoc]
  · refine (containsSub_iff _ _).mpr ⟨tpl1.data ++ (name.data ++
      " Widget</title>\n  </head>\n  <body>\n    ".data),
      "\n    ".data ++ ("<script type=\"module\" src=\"".data ++ ("https://".data ++
        (host.data ++ ('/' :: ("assets/chatgpt-widget-".data ++ (name.data ++ ('-' ::
          (hash.data ++ (".js".data ++ ('"' :: '>' :: tplTail.data)))))))))), ?_⟩
    rw [prod_data]
    simp [tpl1, tpl2a, List.append_assoc]
  · refine ⟨tpl1.data ++ (name.data ++ (tpl2a.data ++
      "<script type=\"module\" ".data)), '>' :: tplTail.data, ?_, habs1⟩
    show devHtmlData host name = _
    simp [devHtmlData, tpl1, tpl2a, List.append_assoc]
  · refine ⟨tpl1.data ++ (name.data ++ (tpl2a.data ++
      "<script type=\"module\" ".data)), '>' :: tplTail.data, ?_, habs2⟩
    rw [prod_data]
    simp [tpl1, tpl2a, List.append_assoc]

theorem c1_dev_prod_structural_equivalence_witness :
    (("example.com" : String).data ≠ [] ∧
     (∀ c ∈ ("example.com" : String).data, hostCharOK c = true) ∧
     (∀ c ∈ ("TestWidget" : String).data, nameCharOK c = true) ∧
     (∀ c ∈ ("Ab3dE" : String).data, nameCharOK c = true)) ∧
    ∃ devHtml,
      getWidgetHTMLDev [] (some ("https://" ++ "example.com" ++ "/")) "" "TestWidget" =
        .ok (devHtml, .devServer) ∧
      (containsSub ("<title>" ++ "TestWidget" ++ " Widget</title>").data devHtml.data = true ∧
       containsSub ("<title>" ++ "TestWidget" ++ " Widget</title>").data
         (prodBuiltWidgetHTML "TestWidget" ("https://" ++ "example.com" ++ "/") "Ab3dE").data = true) ∧
      (containsSub "<div id=\"root\"></div>".data devHtml.data = true ∧
       containsSub "<div id=\"root\"></div>".data
         (prodBuiltWidgetHTML "TestWidget" ("https://" ++ "example.com" ++ "/") "Ab3dE").data = true) ∧
      (∃ u v, devHtml.data = u ++ ("src=\"".data ++
          (("https://" ++ "example.com" ++ "/@id/virtual:chatgpt-widget-entrypoint-" ++ "TestWidget" ++
            ".js").data ++ '"' :: v)) ∧
        isAbsoluteUrl ("https://" ++ "example.com" ++ "/@id/virtual:chatgpt-widget-entrypoint-" ++
          "TestWidget" ++ ".js") = true) ∧
      (∃ u v, (prodBuiltWidgetHTML "TestWidget" ("https://" ++ "example.com" ++ "/") "Ab3dE").data =
          u ++ ("src=\"".data ++
            (("https://" ++ "example.com" ++ "/assets/chatgpt-widget-" ++ "TestWidget" ++ "-" ++ "Ab3dE" ++
              ".js").data ++ '"' :: v)) ∧
        isAbsoluteUrl ("https://" ++ "example.com" ++ "/assets/chatgpt-widget-" ++ "TestWidget" ++ "-" ++
          "Ab3dE" ++ ".js") = true) ∧
      containsSub "virtual:".data
        (prodBuiltWidgetHTML "TestWidget" ("https://" ++ "example.com" ++ "/") "Ab3dE").data ≠ true ∧
      containsSub "/@id/".data
        (prodBuiltWidgetHTML "TestWidget" ("https://" ++ "example.com" ++ "/") "Ab3dE").data ≠ true :=
  ⟨⟨by decide, by decide, by decide, by decide⟩,
    c1_dev_prod_structural_equivalence "example.com" "TestWidget" "Ab3dE"
      (by decide) (by decide) (by decide) (by decide)⟩

end VCW
